import Mathlib

/-
  Verification of the financial-research extraction engine.

  Shallow embedding of the Python sources under financial-research-app/:
  numeric values (Python floats) are modelled as exact rationals (ℚ),
  Python strings as `List Char`, Python dicts as insertion-ordered
  association lists, and fallible operations as `Option`/`Except`.
-/

set_option maxHeartbeats 1000000

/-! ## Generic list/string helpers (models of Python builtins) -/

/-- Model of Python whitespace as used by `str.strip()`. -/
def isPySpace (c : Char) : Bool :=
  c == ' ' || c == '\t' || c == '\n' || c == '\r' || c == '\x0b' || c == '\x0c'

/-- Model of `str.strip()`: remove leading and trailing whitespace. -/
def stripWS (s : List Char) : List Char :=
  ((s.dropWhile isPySpace).reverse.dropWhile isPySpace).reverse

/-- `startsWithL pat s` is true when `pat` is a prefix of `s`. -/
def startsWithL : List Char → List Char → Bool
  | [], _ => true
  | _ :: _, [] => false
  | p :: ps, c :: cs => p == c && startsWithL ps cs

/-- `isSubstr needle hay`: Python `needle in hay` substring test. -/
def isSubstr (needle : List Char) : List Char → Bool
  | [] => needle.isEmpty
  | c :: rest => startsWithL needle (c :: rest) || isSubstr needle rest

/-- Model of Python `s.replace(pat, '')`: remove every (leftmost,
non-overlapping) occurrence of `pat` from `s`. -/
def removeOcc (pat : List Char) : List Char → List Char
  | [] => []
  | c :: rest =>
    if startsWithL pat (c :: rest) && !pat.isEmpty then
      removeOcc pat (rest.drop (pat.length - 1))
    else
      c :: removeOcc pat rest
termination_by s => s.length
decreasing_by
  · simp only [List.length_cons]
    have := List.length_drop (pat.length - 1) rest
    omega
  · simp [List.length_cons]

/-- Model of Python `s.split('.')`-style splitting on a single character. -/
def splitOnChar (sep : Char) : List Char → List (List Char)
  | [] => [[]]
  | c :: rest =>
    if c == sep then [] :: splitOnChar sep rest
    else
      match splitOnChar sep rest with
      | [] => [[c]]
      | g :: gs => (c :: g) :: gs

/-- Value of a digit string, most significant digit first. -/
def digitsToNat (s : List Char) : Nat :=
  s.foldl (fun n c => n * 10 + (c.toNat - ('0').toNat)) 0

/-- Model of Python `float()` on unsigned decimal literals
(`digits`, `digits.`, `.digits`, `digits.digits`); other inputs are a
parse failure (`none`), matching `float` raising `ValueError`. -/
def parseUnsigned (s : List Char) : Option ℚ :=
  let intPart := s.takeWhile Char.isDigit
  let rest := s.dropWhile Char.isDigit
  match rest with
  | [] => if intPart.isEmpty then none else some (digitsToNat intPart)
  | '.' :: frac =>
    if frac.all Char.isDigit && !(intPart.isEmpty && frac.isEmpty) then
      some ((digitsToNat intPart : ℚ) + (digitsToNat frac : ℚ) / (10 : ℚ) ^ frac.length)
    else none
  | _ => none

/-- Model of Python `float()` on optionally `-`-signed decimal literals. -/
def parseFloatQ (s : List Char) : Option ℚ :=
  if s.head? = some '-' then (parseUnsigned s.tail).map (fun q => -q)
  else parseUnsigned s

/-- Replace the binding of `k` (or append it) in an association list;
models overwriting a file keyed by its name. -/
def setKey {α : Type} (k : String) (v : α) (l : List (String × α)) : List (String × α) :=
  l.filter (fun p => p.1 ≠ k) ++ [(k, v)]

/-- Model of Python `str.upper()` (ASCII). -/
def strUpper (s : String) : String := String.mk (s.data.map Char.toUpper)

/-- Model of Python `str.replace(a, b)` for single characters. -/
def strReplaceChar (a b : Char) (s : String) : String :=
  String.mk (s.data.map (fun c => if c = a then b else c))

/-! ## Derivation Engine: `QuarterlyData.calculate_derived_metrics`
    (core/data_models.py) -/

/-- Embedding of the `QuarterlyData` dataclass: nine core indicators,
six derived metrics and four margin percentages, all optional. -/
structure QuarterlyData where
  total_income : Option ℚ := none
  purchase_traded_goods : Option ℚ := none
  stock_change : Option ℚ := none
  employee_cost : Option ℚ := none
  other_expenses : Option ℚ := none
  depreciation : Option ℚ := none
  interest : Option ℚ := none
  other_income : Option ℚ := none
  tax : Option ℚ := none
  contribution : Option ℚ := none
  op_ebitda : Option ℚ := none
  op_ebit : Option ℚ := none
  op_pbt : Option ℚ := none
  pbt : Option ℚ := none
  pat : Option ℚ := none
  op_ebitda_pct : Option ℚ := none
  op_ebit_pct : Option ℚ := none
  op_pbt_pct : Option ℚ := none
  pbt_pct : Option ℚ := none
  deriving DecidableEq, Repr

/-- Build a `QuarterlyData` from the nine core indicators, with all
derived fields at their dataclass default `None`. -/
def mkQuarterly (ti ptg sc ec oe dep intr oi tax : Option ℚ) : QuarterlyData :=
  { total_income := ti, purchase_traded_goods := ptg, stock_change := sc,
    employee_cost := ec, other_expenses := oe, depreciation := dep,
    interest := intr, other_income := oi, tax := tax }

/-- `contribution = total_income - purchase_traded_goods - stock_change`,
only when all three are present. -/
def step_contribution (q : QuarterlyData) : QuarterlyData :=
  match q.total_income, q.purchase_traded_goods, q.stock_change with
  | some ti, some p, some s => { q with contribution := some (ti - p - s) }
  | _, _, _ => q

/-- `op_ebitda = contribution - employee_cost - other_expenses`. -/
def step_op_ebitda (q : QuarterlyData) : QuarterlyData :=
  match q.contribution, q.employee_cost, q.other_expenses with
  | some c, some e, some o => { q with op_ebitda := some (c - e - o) }
  | _, _, _ => q

/-- `op_ebit = op_ebitda - depreciation`. -/
def step_op_ebit (q : QuarterlyData) : QuarterlyData :=
  match q.op_ebitda, q.depreciation with
  | some e, some d => { q with op_ebit := some (e - d) }
  | _, _ => q

/-- `op_pbt = op_ebit - interest`. -/
def step_op_pbt (q : QuarterlyData) : QuarterlyData :=
  match q.op_ebit, q.interest with
  | some e, some i => { q with op_pbt := some (e - i) }
  | _, _ => q

/-- `pbt = op_pbt + other_income`. -/
def step_pbt (q : QuarterlyData) : QuarterlyData :=
  match q.op_pbt, q.other_income with
  | some p, some o => { q with pbt := some (p + o) }
  | _, _ => q

/-- `pat = pbt - tax`. -/
def step_pat (q : QuarterlyData) : QuarterlyData :=
  match q.pbt, q.tax with
  | some p, some t => { q with pat := some (p - t) }
  | _, _ => q

/-- Margin percentages, guarded by
`if self.total_income and self.total_income > 0`. -/
def step_margins (q : QuarterlyData) : QuarterlyData :=
  match q.total_income with
  | some ti =>
    if 0 < ti then
      let q := match q.op_ebitda with
        | some v => { q with op_ebitda_pct := some (v / ti * 100) }
        | none => q
      let q := match q.op_ebit with
        | some v => { q with op_ebit_pct := some (v / ti * 100) }
        | none => q
      let q := match q.op_pbt with
        | some v => { q with op_pbt_pct := some (v / ti * 100) }
        | none => q
      match q.pbt with
        | some v => { q with pbt_pct := some (v / ti * 100) }
        | none => q
    else q
  | none => q

/-- Embedding of `QuarterlyData.calculate_derived_metrics`: the
derivation steps are applied in the source's order.  (The source's
`try/except` wrapper is vacuous in this exact-arithmetic model: no
step can raise.) -/
def calculate_derived_metrics (q : QuarterlyData) : QuarterlyData :=
  step_margins (step_pat (step_pbt (step_op_pbt (step_op_ebit (step_op_ebitda (step_contribution q))))))

/-- Spec-side helper: apply `f` exactly when all three inputs are present. -/
def omap3 (f : ℚ → ℚ → ℚ → ℚ) : Option ℚ → Option ℚ → Option ℚ → Option ℚ
  | some a, some b, some c => some (f a b c)
  | _, _, _ => none

/-- Spec-side helper: apply `f` exactly when both inputs are present. -/
def omap2 (f : ℚ → ℚ → ℚ) : Option ℚ → Option ℚ → Option ℚ
  | some a, some b => some (f a b)
  | _, _ => none

/-- Spec-side helper: the margin `x / total_income * 100`, computed
exactly when `x` is present and `total_income` is present and positive. -/
def omargin (ti x : Option ℚ) : Option ℚ :=
  match ti, x with
  | some t, some v => if 0 < t then some (v / t * 100) else none
  | _, _ => none

/-! ## HTML Scrape Adapter (parsers/moneycontrol_scraper_v2.py) -/

/-- The placeholder cell texts of `MoneycontrolScraperV2._parse_value`:
`['-', '--', 'N/A', 'NA', '']`. -/
def placeholderCells : List (List Char) :=
  [("-").toList, ("--").toList, ("N/A").toList, ("NA").toList, []]

/-- Leftmost match of the regex `-?[\d.]+`: the first maximal run of
digits/dots, with an optional leading `-` that only counts when
immediately followed by a digit or dot. Returns the matched group. -/
def findNum : List Char → Option (List Char)
  | [] => none
  | c :: rest =>
    if c.isDigit || c == '.' then
      some ((c :: rest).takeWhile (fun x => x.isDigit || x == '.'))
    else if c == '-' &&
        (match rest with
         | r :: _ => r.isDigit || r == '.'
         | [] => false) then
      some ('-' :: rest.takeWhile (fun x => x.isDigit || x == '.'))
    else findNum rest

/-- Embedding of `MoneycontrolScraperV2._parse_value`: placeholder cells
give `none`; commas, `Rs`, `INR` and currency symbols are stripped; a
number wrapped in parentheses becomes negative; unit suffixes found in
the (lowercased) original text rescale the value; unparsable text gives
`none` (the source's caught `ValueError`). -/
def parse_value (text : List Char) : Option ℚ :=
  if text = [] ∨ stripWS text ∈ placeholderCells then none
  else
    let cleaned := stripWS (removeOcc ("INR").toList (removeOcc ("Rs").toList (removeOcc (",").toList text)))
    let cleaned := cleaned.filter (fun c => !(c == '₹' || c == '$' || c == '€' || c == '£'))
    let cleaned :=
      if '(' ∈ cleaned ∧ ')' ∈ cleaned then
        '-' :: cleaned.filter (fun c => !(c == '(' || c == ')'))
      else cleaned
    match findNum cleaned with
    | none => none
    | some g =>
      match parseFloatQ g with
      | none => none
      | some v =>
        let tl := text.map Char.toLower
        if isSubstr ("cr").toList tl || isSubstr ("crore").toList tl then some v
        else if isSubstr ("lac").toList tl || isSubstr ("lakh").toList tl then some (v / 100)
        else if isSubstr ("million").toList tl then some (v / 10)
        else if isSubstr ("billion").toList tl then some (v * 100)
        else some v

/-- A scraped indicator cell as produced by `_extract_table_data`
(value, confidence, raw text, year). Only the parts the claims need are
kept structured. -/
structure ScrapedCell where
  value : ℚ
  confidence : ℚ
  raw_text : List Char
  deriving DecidableEq, Repr

/-- One period's scraped indicator dictionary. -/
def ScrapedQuarter : Type := List (String × ScrapedCell)

instance : DecidableEq ScrapedQuarter := by
  unfold ScrapedQuarter
  infer_instance

/-- Embedding of `MoneycontrolScraperV2.extract_specific_quarter` after
the network fetch: `quarterly_data` is the dictionary produced by
`scrape_company` (period key, e.g. "Q1_2023", to indicator data, in
page order).  The source tries the exact `QUARTER_year` key — but only
under the truthiness guard `if year:`, which is also false for
`year = 0`, so a zero year skips the exact lookup — then any key
starting with the upper-cased quarter, then falls back to the first
available period, and returns `None` only when `quarterly_data` is
empty. -/
def extract_specific_quarter (quarterly_data : List (String × ScrapedQuarter))
    (quarter : String) (year : Option Int) : Option ScrapedQuarter :=
  if quarterly_data.isEmpty then none
  else
    let qu := strUpper quarter
    let exact : Option ScrapedQuarter :=
      match year with
      | some y =>
        if y = 0 then none
        else quarterly_data.lookup (qu ++ "_" ++ toString y)
      | none => none
    match exact with
    | some d => some d
    | none =>
      match quarterly_data.find? (fun p => startsWithL qu.data p.1.data) with
      | some p => some p.2
      | none =>
        match quarterly_data with
        | p :: _ => some p.2
        | [] => none

/-! ## Pattern Extractor (core/data_extractor.py)

The regex engine itself is not re-implemented: a compiled pattern is
modelled as an opaque matcher `List Char → Option RMatch` giving the
match span and the text captured by group 1 (in every pattern of
`_build_patterns`, group 1 is the shared number regex
`\d+(?:,\d+)*(?:\.\d+)?`).  The selection, confidence and validation
logic built on top of the matchers is embedded faithfully. -/

/-- A regex match: span within the text and the group-1 capture. -/
structure RMatch where
  mstart : Nat
  mstop : Nat
  group1 : List Char
  deriving DecidableEq, Repr

/-- Embedding of `FinancialDataExtractor._clean_number`: strip currency
markers, remove commas, collapse multiple dots keeping the last as the
decimal separator, parse as a float; parse failure yields `0.0`. -/
def clean_number (numStr : List Char) : ℚ :=
  let cleaned := stripWS (removeOcc ("INR").toList (removeOcc ("Rs").toList (removeOcc ("₹").toList numStr)))
  let cleaned := removeOcc (",").toList cleaned
  let parts := splitOnChar '.' cleaned
  let cleaned :=
    if parts.length > 2 then (parts.dropLast).flatten ++ '.' :: parts.getLastD []
    else cleaned
  match parseFloatQ cleaned with
  | some v => v
  | none => 0

/-- The period keywords of `extract_indicator`'s confidence boost. -/
def boostKeywords : List (List Char) :=
  [("quarterly").toList, ("q1").toList, ("q2").toList,
   ("q3").toList, ("q4").toList, ("fy").toList]

/-- The `±100`-character context window
`text[max(0, match.start()-100) : min(len(text), match.end()+100)]`. -/
def contextWindow (text : List Char) (mstart mstop : Nat) : List Char :=
  let a := mstart - 100
  let b := min text.length (mstop + 100)
  (text.drop a).take (b - a)

/-- Whether the lowercased context window around the match contains one
of the period keywords. -/
def hasBoostKeyword (text : List Char) (m : RMatch) : Bool :=
  boostKeywords.any
    (fun w => isSubstr w ((contextWindow text m.mstart m.mstop).map Char.toLower))

/-- The pattern loop of `FinancialDataExtractor.extract_indicator`:
try patterns in order starting at rank `i`; the first match wins with
confidence `0.95 - 0.1*rank`, boosted by `+0.05` (capped at `1.0`)
when a period keyword appears in the context window. -/
def extract_indicator_go (text : List Char) :
    List (List Char → Option RMatch) → Nat → Option (ℚ × ℚ)
  | [], _ => none
  | p :: rest, i =>
    match p text with
    | some m =>
      let confidence : ℚ := 95 / 100 - (i : ℚ) * (1 / 10)
      let confidence :=
        if hasBoostKeyword text m then min 1 (confidence + 5 / 100) else confidence
      some (clean_number m.group1, confidence)
    | none => extract_indicator_go text rest (i + 1)

/-- Embedding of `FinancialDataExtractor.extract_indicator` for a known
indicator, given its ordered pattern list. -/
def extract_indicator (patterns : List (List Char → Option RMatch))
    (text : List Char) : Option (ℚ × ℚ) :=
  extract_indicator_go text patterns 0

/-- The keys of `_build_patterns`, in dict insertion order: this is the
iteration order of `extract_all_indicators`. -/
def indicatorNames : List String :=
  ["total_income", "ebitda", "ebit", "pbt", "pat", "employee_cost",
   "other_expenses", "depreciation", "interest", "other_income", "tax",
   "ebitda_margin", "ebit_margin", "profit_margin", "eps"]

/-- The extraction loop of `extract_all_indicators`: run the extractor
for each known indicator in order, keeping only those that matched.
`ext name` stands for `extract_indicator(text, name)` on the fixed
input text. -/
def buildResults (ext : String → Option (ℚ × ℚ)) :
    List String → List (String × ℚ × ℚ)
  | [] => []
  | n :: rest =>
    match ext n with
    | some (v, c) => (n, v, c) :: buildResults ext rest
    | none => buildResults ext rest

/-- Model of Python `str.title()` (ASCII): uppercase an alphabetic
character not preceded by an alphabetic one, lowercase the rest. -/
def titleCaseGo : Bool → List Char → List Char
  | _, [] => []
  | prevAlpha, c :: rest =>
    if c.isAlpha then
      (if prevAlpha then c.toLower else c.toUpper) :: titleCaseGo true rest
    else c :: titleCaseGo false rest

/-- The label `indicator.replace('_', ' ').title()` used by the
explicit-unavailability check. -/
def indicatorLabel (ind : String) : String :=
  String.mk (titleCaseGo false (strReplaceChar '_' ' ' ind).data)

/-- `del results[k]` on the insertion-ordered dict. -/
def eraseIndicator (k : String) (l : List (String × ℚ × ℚ)) : List (String × ℚ × ℚ) :=
  l.filter (fun p => p.1 ≠ k)

/-- Embedding of `FinancialDataExtractor.extract_all_indicators` after
the per-indicator extraction: `ext` is the per-indicator matcher on the
fixed text and `notAvail lbl` models
`re.search(lbl + "[:\s]+(?:Not|N/A|NA|not available|...)", text, IGNORECASE)`
on that same text.  Three pruning rules run in source order: the
PBT/Total-Income collision, the PAT-as-percentage check, and the
explicit-unavailability removal. -/
def extract_all_indicators (ext : String → Option (ℚ × ℚ))
    (notAvail : String → Bool) : List (String × ℚ × ℚ) :=
  let results := buildResults ext indicatorNames
  let results :=
    match results.lookup "pbt", results.lookup "total_income" with
    | some pv, some tv =>
      if |pv.1 - tv.1| < 1 then eraseIndicator "pbt" results else results
    | _, _ => results
  let results :=
    match results.lookup "pat", results.lookup "total_income" with
    | some pv, some tv =>
      if pv.1 < 100 ∧ tv.1 > 10000 then eraseIndicator "pat" results else results
    | _, _ => results
  results.filter (fun p => !notAvail (indicatorLabel p.1))

/-! ## Context Validator (utils/extraction_validator.py)

`validate` receives the extracted-data dict; each rule reads only
`data[field]['value']`, so the data is modelled as a map from indicator
name to value.  The source classifies a failed rule as a hard error by
substring: `"Missing critical fields" in message or "impossible" in
message`.  Messages are modelled by their (fixed) templates, carrying
the interpolated values; `isHardError` decides the substring test on
those templates (only the PAT>PBT template contains "impossible" and
only the missing-fields template contains "Missing critical fields";
interpolated numbers cannot introduce either). -/

/-- The values interpolated into `_validate_reasonable_ranges` issues. -/
inductive RangeIssue where
  | negField (name : String) (v : ℚ)
  | highMargin (m : ℚ)
  deriving DecidableEq, Repr

/-- The validator's message templates. -/
inductive VMsg where
  | pbtEqualsIncome (pbt income : ℚ)
  | patPercentage (pat income : ℚ)
  | rangeIssues (issues : List RangeIssue)
  | ebitdaLtEbit (ebitda ebit : ℚ)
  | pbtGtEbit (pbt ebit : ℚ)
  | patGtPbt (pat pbt : ℚ)
  | missingCritical (missing : List String)
  deriving DecidableEq, Repr

/-- `"Missing critical fields" in message or "impossible" in message`
evaluated on the fixed message templates. -/
def isHardError : VMsg → Bool
  | .patGtPbt _ _ => true
  | .missingCritical _ => true
  | _ => false

/-- Extracted data as seen by the validator: indicator name to value. -/
def VData : Type := List (String × ℚ)

/-- `_validate_pbt_not_total_income`. -/
def validate_pbt_not_total_income (d : VData) : Bool × Option VMsg :=
  match List.lookup "pbt" d, List.lookup "total_income" d with
  | some pbt, some income =>
    if |pbt - income| < 1 then (false, some (.pbtEqualsIncome pbt income))
    else (true, none)
  | _, _ => (true, none)

/-- `_validate_pat_not_percentage`. -/
def validate_pat_not_percentage (d : VData) : Bool × Option VMsg :=
  match List.lookup "pat" d, List.lookup "total_income" d with
  | some pat, some income =>
    if pat < 100 ∧ income > 10000 then (false, some (.patPercentage pat income))
    else (true, none)
  | _, _ => (true, none)

/-- `_validate_reasonable_ranges`: negative profits and an EBITDA
margin above 50% are soft issues.  When `total_income` is `0.0` with
EBITDA present, the source raises `ZeroDivisionError`, modelled as
`.error ()`. -/
def validate_reasonable_ranges (d : VData) : Except Unit (Bool × Option VMsg) :=
  let issues := (["ebitda", "ebit", "pbt", "pat"].filterMap
    (fun f => match List.lookup f d with
      | some v => if v < 0 then some (RangeIssue.negField f v) else none
      | none => none))
  match List.lookup "ebitda" d, List.lookup "total_income" d with
  | some e, some ti =>
    if ti = 0 then .error ()
    else
      let margin := e / ti * 100
      let issues := issues ++ (if margin > 50 then [RangeIssue.highMargin margin] else [])
      .ok (if issues = [] then (true, none) else (false, some (.rangeIssues issues)))
  | _, _ => .ok (if issues = [] then (true, none) else (false, some (.rangeIssues issues)))

/-- `_validate_profit_hierarchy`: the three checks run in order and the
rule returns at the FIRST failing check. -/
def validate_profit_hierarchy (d : VData) : Bool × Option VMsg :=
  let c1 : Option VMsg :=
    match List.lookup "ebitda" d, List.lookup "ebit" d with
    | some a, some b => if a < b then some (.ebitdaLtEbit a b) else none
    | _, _ => none
  match c1 with
  | some m => (false, some m)
  | none =>
    let c2 : Option VMsg :=
      match List.lookup "ebit" d, List.lookup "pbt" d with
      | some e, some p => if p > e * (3 / 2) then some (.pbtGtEbit p e) else none
      | _, _ => none
    match c2 with
    | some m => (false, some m)
    | none =>
      match List.lookup "pbt" d, List.lookup "pat" d with
      | some p, some t =>
        if p > 0 ∧ t > p then (false, some (.patGtPbt t p)) else (true, none)
      | _, _ => (true, none)

/-- `_validate_missing_critical_fields`: `ebit`, `interest` and
`other_income` are required for the Op. PBT derivation. -/
def validate_missing_critical_fields (d : VData) : Bool × Option VMsg :=
  let missing := ["ebit", "interest", "other_income"].filter
    (fun f => (List.lookup f d).isNone)
  if missing = [] then (true, none) else (false, some (.missingCritical missing))

/-- The validation report (`{valid, errors, warnings, ...}`). -/
structure VReport where
  valid : Bool
  warnings : List VMsg
  errors : List VMsg
  company : String
  quarter : String
  year : Int
  deriving DecidableEq, Repr

/-- Fold step of `ExtractionValidator.validate`: a failed rule's
message goes to `errors` (clearing `valid`) when the substring test
marks it hard, else to `warnings`.  (A rule never fails without a
message.) -/
def applyRule (acc : VReport) : Bool × Option VMsg → VReport
  | (false, some m) =>
    if isHardError m then { acc with errors := acc.errors ++ [m], valid := false }
    else { acc with warnings := acc.warnings ++ [m] }
  | _ => acc

/-- Embedding of `ExtractionValidator.validate`: run the five rules in
registration order and classify failures; the `ZeroDivisionError` from
the range rule propagates. -/
def validate (d : VData) (company quarter : String) (year : Int) :
    Except Unit VReport :=
  match validate_reasonable_ranges d with
  | .error e => .error e
  | .ok r3 =>
    let rules := [validate_pbt_not_total_income d, validate_pat_not_percentage d,
      r3, validate_profit_hierarchy d, validate_missing_critical_fields d]
    .ok (rules.foldl applyRule
      { valid := true, warnings := [], errors := [],
        company := company, quarter := quarter, year := year })

/-! ## Hybrid Source Selector (core/hybrid_data_source.py)

The two upstream calls (the Perplexity client and the Moneycontrol
scraper) are modelled by their possible behaviours: raising an
exception, or returning `None`/a payload.  The adapters' own
`try/except` blocks turn a raise into `None`, exactly as in the
source. -/

/-- A collaborator call's behaviour: raise, or return a value. -/
inductive Behavior (α : Type) where
  | raises
  | returns (a : α)

/-- The Perplexity client's successful payload
(`get_company_financials` result). -/
structure ApiResult where
  raw_response : String := ""
  timestamp : Option String := none
  deriving DecidableEq, Repr

/-- Output of `FinancialDataExtractor.extract_with_context` (modelled
abstractly: the claims about the hybrid selector and the orchestrator
do not depend on how the indicators were extracted from the text). -/
structure ExtractedCtx where
  extracted_data : List (String × ℚ × ℚ)
  context_confidence : ℚ
  deriving DecidableEq, Repr

/-- An entry of a result's `extracted_data` dict: the AI path stores
`{'value', 'confidence'}` dicts, the scrape path stores scraper cells. -/
inductive IndVal where
  | ai (value confidence : ℚ)
  | scraped (c : ScrapedCell)
  deriving DecidableEq, Repr

/-- The result dict shape produced by `HybridDataSource`; absent dict
keys are modelled as `none`/defaults. -/
structure XResult where
  company : String
  quarter : String
  year : Int
  source : String
  extracted_data : List (String × IndVal)
  context_confidence : ℚ
  raw_response : Option String := none
  is_fallback : Bool := false
  primary_source_failed : Option String := none
  fallback_message : Option String := none
  error : Option String := none
  deriving DecidableEq, Repr

/-- Embedding of `HybridDataSource._extract_from_perplexity`: a raise
is caught and becomes `None`; a `None` client result becomes `None`;
otherwise the raw text is run through the NLP extractor (`ewc`). -/
def extract_from_perplexity (pc : Behavior (Option ApiResult))
    (ewc : String → String → String → Int → ExtractedCtx)
    (company quarter : String) (year : Int) : Option XResult :=
  match pc with
  | .raises => none
  | .returns none => none
  | .returns (some res) =>
    let e := ewc res.raw_response company quarter year
    some { company := company, quarter := quarter, year := year,
           source := "Perplexity AI",
           extracted_data := e.extracted_data.map (fun p => (p.1, IndVal.ai p.2.1 p.2.2)),
           context_confidence := e.context_confidence,
           raw_response := some res.raw_response }

/-- Embedding of `HybridDataSource._extract_from_moneycontrol`: a raise
is caught and becomes `None`; a falsy (`None` or empty) scraper result
becomes `None`; otherwise a Moneycontrol-sourced result with
confidence 0.95. -/
def extract_from_moneycontrol (sc : Behavior (Option ScrapedQuarter))
    (company quarter : String) (year : Int) : Option XResult :=
  match sc with
  | .raises => none
  | .returns none => none
  | .returns (some qd) =>
    if qd.isEmpty then none
    else
      some { company := company, quarter := quarter, year := year,
             source := "Moneycontrol",
             extracted_data := qd.map (fun p => (p.1, IndVal.scraped p.2)),
             context_confidence := 95 / 100 }

/-- The empty result returned when both sources fail. -/
def emptyResult (company quarter : String) (year : Int) : XResult :=
  { company := company, quarter := quarter, year := year,
    source := "None", extracted_data := [], context_confidence := 0,
    error := some "No data available from any source" }

/-- Embedding of `HybridDataSource.extract_financial_data`: Perplexity
primary (only when a client is configured), Moneycontrol fallback
(marked `is_fallback` with a fallback message), empty result when both
fail.  Total: no behaviour of the collaborators makes it raise. -/
def extract_financial_data (hasClient : Bool)
    (pc : Behavior (Option ApiResult))
    (ewc : String → String → String → Int → ExtractedCtx)
    (sc : Behavior (Option ScrapedQuarter))
    (company quarter : String) (year : Int) : XResult :=
  let fallbackPath : XResult :=
    match extract_from_moneycontrol sc company quarter year with
    | some r =>
      if !r.extracted_data.isEmpty then
        { r with is_fallback := true,
                 primary_source_failed := some "Perplexity",
                 fallback_message := some "Using Moneycontrol data (Perplexity unavailable)" }
      else emptyResult company quarter year
    | none => emptyResult company quarter year
  if hasClient then
    match extract_from_perplexity pc ewc company quarter year with
    | some r => if !r.extracted_data.isEmpty then r else fallbackPath
    | none => fallbackPath
  else fallbackPath

/-! ## Storage Layer and Research Orchestrator
    (core/research_storage.py, core/research_orchestrator.py)

Persisted research records are JSON dicts; the storage directory is an
association list from file name to record.  Malformed-JSON loads (which
the source logs and treats as not-found) are out of this model. -/

/-- A JSON-like value; validator message strings are carried as their
modelled templates. -/
inductive JVal where
  | str (s : String)
  | num (q : ℚ)
  | int (i : Int)
  | bool (b : Bool)
  | null
  | arr (l : List JVal)
  | obj (o : List (String × JVal))
  | msg (m : VMsg)

/-- A persisted research record (a JSON dict). -/
def Rec : Type := List (String × JVal)

/-- The storage directory: file name to record. -/
def Storage : Type := List (String × Rec)

/-- `ResearchStorage._get_file_path`. -/
def file_path (company quarter : String) (year : Int) : String :=
  strReplaceChar ' ' '_' company ++ "_" ++ quarter ++ "_" ++ toString year ++ ".json"

/-- Embedding of `ResearchStorage.load_research`: read the record file
for the exact key, `none` when absent. -/
def load_research (st : Storage) (company quarter : String) (year : Int) : Option Rec :=
  List.lookup (file_path company quarter year) st

/-- Python dict assignment `d[k] = v`: replace in place or append. -/
def setField (k : String) (v : JVal) : Rec → Rec
  | [] => [(k, v)]
  | p :: rest => if p.1 = k then (k, v) :: rest else p :: setField k v rest

/-- Embedding of `ResearchStorage.save_research`: reads the key fields
from the record (a missing key raises, is caught, and returns `False`
with nothing written), adds `save_timestamp` and `version`, and
overwrites the record's file.  Returns the new storage, the (mutated)
record seen by the caller, and the success flag. -/
def save_research (st : Storage) (nowIso : String) (rec : Rec) :
    Storage × Rec × Bool :=
  match List.lookup "company" rec, List.lookup "quarter" rec, List.lookup "year" rec with
  | some (.str c), some (.str q), some (.int y) =>
    let rec2 := setField "save_timestamp" (.str nowIso) rec
    let rec2 := setField "version"
      (match List.lookup "version" rec2 with | some v => v | none => .int 1) rec2
    (setKey (file_path c q y) rec2 st, rec2, true)
  | _, _, _ => (st, rec, false)

/-- `extracted_data` as persisted: indicator name to
`{'value', 'confidence'}`. -/
def encodeExtracted (l : List (String × ℚ × ℚ)) : JVal :=
  .obj (l.map (fun p => (p.1, .obj [("value", .num p.2.1), ("confidence", .num p.2.2)])))

/-- The validator's report as persisted. -/
def encodeReport (r : VReport) : JVal :=
  .obj [("valid", .bool r.valid),
        ("warnings", .arr (r.warnings.map JVal.msg)),
        ("errors", .arr (r.errors.map JVal.msg)),
        ("company", .str r.company), ("quarter", .str r.quarter),
        ("year", .int r.year)]

/-- The `{'status': 'failed', ...}` record returned (NOT persisted)
when the API query yields nothing. -/
def failedRec (company quarter : String) (year : Int) : Rec :=
  [("company", .str company), ("quarter", .str quarter), ("year", .int year),
   ("status", .str "failed"), ("error", .str "API query failed")]

/-- Embedding of `ResearchOrchestrator.research_company_quarter`.
`api` is the Perplexity call's behaviour, `ewc` the NLP extraction,
`summarize` models `get_extraction_summary` (a pure string render),
`nowIso` the save timestamp.  Returns the result record, the new
storage, and whether the API was queried.  An uncaught exception
(client raise, or the validator's division by zero) is `.error`. -/
def research_company_quarter (st : Storage) (api : Behavior (Option ApiResult))
    (ewc : String → String → String → Int → ExtractedCtx)
    (summarize : String → String → Int → ExtractedCtx → String)
    (nowIso : String) (company quarter : String) (year : Int) :
    Except Unit (Rec × Storage × Bool) :=
  let missPath : Except Unit (Rec × Storage × Bool) :=
    match api with
    | .raises => .error ()
    | .returns none => .ok (failedRec company quarter year, st, true)
    | .returns (some res) =>
      let e := ewc res.raw_response company quarter year
      match validate (e.extracted_data.map (fun p => (p.1, p.2.1))) company quarter year with
      | .error _ => .error ()
      | .ok vr =>
        let research_data : Rec :=
          [("company", .str company), ("quarter", .str quarter), ("year", .int year),
           ("status", .str "success"),
           ("raw_response", .str res.raw_response),
           ("extracted_data", encodeExtracted e.extracted_data),
           ("context_confidence", .num e.context_confidence),
           ("validation", encodeReport vr),
           ("research_timestamp",
             match res.timestamp with | some t => .str t | none => .null),
           ("extraction_summary", .str (summarize company quarter year e))]
        let saved := save_research st nowIso research_data
        .ok (saved.2.1, saved.1, true)
  match load_research st company quarter year with
  | some existing =>
    -- `if existing:` — a truthy (non-empty) stored dict short-circuits
    if !existing.isEmpty then .ok (existing, st, false) else missPath
  | none => missPath

/-! ## Cache Layer (core/cache_manager.py)

Cache files are keyed by a deterministic hash of the query params;
the hash (`md5(json.dumps(params, sort_keys=True))`) is modelled by the
key string itself.  Timestamps (`time.time()`) are rationals. -/

/-- The cache manager's state: files (key to `(timestamp, response)`),
hit/miss counters, and the configured TTL. -/
structure CacheState (α : Type) where
  files : List (String × (ℚ × α))
  hits : Nat
  misses : Nat
  ttl_seconds : ℚ

/-- Embedding of `CacheManager.get`: a missing file is a miss; an entry
older than the TTL is a miss whose stale file is deleted; otherwise a
hit returning the stored response. -/
def cache_get {α : Type} (st : CacheState α) (k : String) (now : ℚ) :
    Option α × CacheState α :=
  match st.files.lookup k with
  | none => (none, { st with misses := st.misses + 1 })
  | some (t, resp) =>
    if now - t > st.ttl_seconds then
      (none, { st with files := st.files.filter (fun p => p.1 ≠ k),
                       misses := st.misses + 1 })
    else
      (some resp, { st with hits := st.hits + 1 })

/-- Embedding of `CacheManager.set`: write `timestamp` and `response`
to the key's file (overwriting any previous entry). -/
def cache_set {α : Type} (st : CacheState α) (k : String) (response : α)
    (now : ℚ) : CacheState α :=
  { st with files := setKey k (now, response) st.files }

/-! ## Theorems -/

/-- A `lookup` hit is a member of the association list. -/
theorem lookup_mem {β : Type} :
    ∀ (l : List (String × β)) (k : String) (v : β),
      List.lookup k l = some v → (k, v) ∈ l := by
  intro l
  induction l with
  | nil => intro k v h; simp [List.lookup] at h
  | cons p rest ih =>
    intro k v h
    rw [List.lookup] at h
    cases hk : k == p.1 with
    | false =>
      simp only [hk] at h
      exact List.mem_cons_of_mem _ (ih k v h)
    | true =>
      simp only [hk] at h
      have h1 : k = p.1 := eq_of_beq hk
      have h2 : v = p.2 := by cases h; rfl
      subst h1; subst h2
      simp

/-- **C1**: in `QuarterlyData.calculate_derived_metrics`, starting from
the nine core indicators (derived fields unset), each derived field is
computed by its stated formula exactly when every one of its direct
inputs is present, and stays `None` otherwise; margins are computed
only when `total_income > 0`.  The spec's worked example
(5000, 100, 50, 3000, 500, 200, 100, 150, 300) yields
contribution 4850, op_ebitda 1350, op_ebit 1150, op_pbt 1050,
pbt 1200, pat 900 and op_ebitda_pct 27; with `interest = None` exactly
op_pbt, pbt, pat and the margins depending on them stay `None` while
the fields not depending on interest are still computed. -/
theorem derived_metrics_formula_iff_inputs :
    (∀ ti ptg sc ec oe dep intr oi tax : Option ℚ,
      let r := calculate_derived_metrics (mkQuarterly ti ptg sc ec oe dep intr oi tax)
      r.contribution = omap3 (fun a b c => a - b - c) ti ptg sc
      ∧ r.op_ebitda = omap3 (fun a b c => a - b - c) r.contribution ec oe
      ∧ r.op_ebit = omap2 (fun a b => a - b) r.op_ebitda dep
      ∧ r.op_pbt = omap2 (fun a b => a - b) r.op_ebit intr
      ∧ r.pbt = omap2 (fun a b => a + b) r.op_pbt oi
      ∧ r.pat = omap2 (fun a b => a - b) r.pbt tax
      ∧ r.op_ebitda_pct = omargin ti r.op_ebitda
      ∧ r.op_ebit_pct = omargin ti r.op_ebit
      ∧ r.op_pbt_pct = omargin ti r.op_pbt
      ∧ r.pbt_pct = omargin ti r.pbt)
    ∧ (let e := calculate_derived_metrics (mkQuarterly (some 5000) (some 100) (some 50)
        (some 3000) (some 500) (some 200) (some 100) (some 150) (some 300))
       e.contribution = some 4850 ∧ e.op_ebitda = some 1350 ∧ e.op_ebit = some 1150
       ∧ e.op_pbt = some 1050 ∧ e.pbt = some 1200 ∧ e.pat = some 900
       ∧ e.op_ebitda_pct = some 27)
    ∧ (let p := calculate_derived_metrics (mkQuarterly (some 5000) (some 100) (some 50)
        (some 3000) (some 500) (some 200) none (some 150) (some 300))
       p.op_pbt = none ∧ p.pbt = none ∧ p.pat = none
       ∧ p.op_pbt_pct = none ∧ p.pbt_pct = none
       ∧ p.contribution = some 4850 ∧ p.op_ebitda = some 1350 ∧ p.op_ebit = some 1150
       ∧ p.op_ebitda_pct = some 27 ∧ p.op_ebit_pct = some 23) := by
  refine ⟨?_, ?_, ?_⟩
  · intro ti ptg sc ec oe dep intr oi tax
    rcases ti with _ | t
    · cases ptg <;> cases sc <;> cases ec <;> cases oe <;> cases dep <;>
        cases intr <;> cases oi <;> cases tax <;>
        simp [calculate_derived_metrics, mkQuarterly, step_contribution, step_op_ebitda,
          step_op_ebit, step_op_pbt, step_pbt, step_pat, step_margins, omap3, omap2, omargin]
    · by_cases h : 0 < t <;>
        cases ptg <;> cases sc <;> cases ec <;> cases oe <;> cases dep <;>
        cases intr <;> cases oi <;> cases tax <;>
        simp [calculate_derived_metrics, mkQuarterly, step_contribution, step_op_ebitda,
          step_op_ebit, step_op_pbt, step_pbt, step_pat, step_margins, omap3, omap2, omargin, h]
  · simp only [calculate_derived_metrics, mkQuarterly, step_contribution, step_op_ebitda,
      step_op_ebit, step_op_pbt, step_pbt, step_pat, step_margins]
    norm_num
  · simp only [calculate_derived_metrics, mkQuarterly, step_contribution, step_op_ebitda,
      step_op_ebit, step_op_pbt, step_pbt, step_pat, step_margins]
    norm_num

/-- **C2 (counterexample)**: the claim says a period absent from the
scraped tables yields no data (`None`) rather than data of another
period.  But with scraped data only for `Q1_2023`, requesting
`Q2 2024` returns the `Q1_2023` data: the adapter falls back to the
first available period. -/
def dummyScrapedQuarter : ScrapedQuarter :=
  [("total_income", { value := 100, confidence := 1, raw_text := ("100").toList })]

theorem extract_specific_quarter_returns_other_period :
    List.lookup "Q2_2024" [("Q1_2023", dummyScrapedQuarter)] = none ∧
    extract_specific_quarter [("Q1_2023", dummyScrapedQuarter)] "Q2" (some 2024) =
      some dummyScrapedQuarter := by
  constructor
  · rfl
  · decide

/-- On non-empty data, `extract_specific_quarter` unfolds to the
three-stage match: truthy-year exact lookup, quarter-prefix search,
first available period. -/
theorem extract_specific_quarter_cons (p : String × ScrapedQuarter)
    (rest : List (String × ScrapedQuarter)) (quarter : String) (year : Option Int) :
    extract_specific_quarter (p :: rest) quarter year =
      match (match year with
             | some y =>
               if y = 0 then none
               else List.lookup (strUpper quarter ++ "_" ++ toString y) (p :: rest)
             | none => none) with
      | some d => some d
      | none =>
        match (p :: rest).find? (fun q => startsWithL (strUpper quarter).data q.1.data) with
        | some q => some q.2
        | none => some p.2 := by
  simp only [extract_specific_quarter, List.isEmpty_cons, Bool.false_eq_true, if_false]

/-- **C2 (amended)**: `extract_specific_quarter` yields `None` exactly
when the scrape produced no data at all.  Otherwise three stages apply
in order: (i) under the source's truthiness guard `if year:` — so only
for a present, non-zero year — a present exact `QUARTER_year` key's
data is returned; a zero year behaves exactly like an absent year,
skipping the exact lookup; (ii) when the exact stage produces nothing,
the first key starting with the upper-cased quarter wins; (iii) when no
key has that prefix, the first scraped period's data is returned.
Never an error, but possibly data belonging to a different period. -/
theorem extract_specific_quarter_fallback_behaviour :
    ∀ (qd : List (String × ScrapedQuarter)) (quarter : String) (year : Option Int),
      (extract_specific_quarter qd quarter year = none ↔ qd = []) ∧
      (∀ y d, year = some y → y ≠ 0 →
        List.lookup (strUpper quarter ++ "_" ++ toString y) qd = some d →
        extract_specific_quarter qd quarter year = some d) ∧
      (extract_specific_quarter qd quarter (some 0) =
        extract_specific_quarter qd quarter none) ∧
      (∀ p, (∀ y, year = some y → y ≠ 0 →
          List.lookup (strUpper quarter ++ "_" ++ toString y) qd = none) →
        qd.find? (fun q => startsWithL (strUpper quarter).data q.1.data) = some p →
        extract_specific_quarter qd quarter year = some p.2) ∧
      (∀ p rest, qd = p :: rest →
        (∀ y, year = some y → y ≠ 0 →
          List.lookup (strUpper quarter ++ "_" ++ toString y) qd = none) →
        qd.find? (fun q => startsWithL (strUpper quarter).data q.1.data) = none →
        extract_specific_quarter qd quarter year = some p.2) := by
  intro qd quarter year
  have hexact : ∀ (p : String × ScrapedQuarter) rest,
      (∀ y, year = some y → y ≠ 0 →
        List.lookup (strUpper quarter ++ "_" ++ toString y) (p :: rest) = none) →
      (match year with
       | some y =>
         if y = 0 then none
         else List.lookup (strUpper quarter ++ "_" ++ toString y) (p :: rest)
       | none => none) = (none : Option ScrapedQuarter) := by
    intro p rest hex
    cases year with
    | none => rfl
    | some y =>
      by_cases hy : y = 0
      · subst hy
        rfl
      · simp only [if_neg hy]
        exact hex y rfl hy
  refine ⟨?_, ?_, ?_, ?_, ?_⟩
  · cases qd with
    | nil => simp [extract_specific_quarter]
    | cons p rest =>
      rw [extract_specific_quarter_cons]
      constructor
      · intro h
        exfalso
        cases hE : (match year with
            | some y =>
              if y = 0 then none
              else List.lookup (strUpper quarter ++ "_" ++ toString y) (p :: rest)
            | none => none) with
        | some d => rw [hE] at h; simp at h
        | none =>
          rw [hE] at h
          cases hf : (p :: rest).find? (fun q => startsWithL (strUpper quarter).data q.1.data) with
          | some q => rw [hf] at h; simp at h
          | none => rw [hf] at h; simp at h
      · intro h; cases h
  · intro y d hy hy0 hd
    subst hy
    cases qd with
    | nil => simp [List.lookup] at hd
    | cons p rest =>
      rw [extract_specific_quarter_cons]
      simp only [if_neg hy0, hd]
  · cases qd with
    | nil => rfl
    | cons p rest =>
      rw [extract_specific_quarter_cons, extract_specific_quarter_cons]
      simp
  · intro p hex hf
    cases qd with
    | nil => simp at hf
    | cons q rest =>
      rw [extract_specific_quarter_cons, hexact q rest hex, hf]
  · intro p rest hqd hex hf
    subst hqd
    rw [extract_specific_quarter_cons, hexact p rest hex, hf]

/-- **C2 (witness)** for the amended theorem: with data for `Q1_2023`
only, requesting `Q2 2024` finds no exact key and no `Q2`-prefixed
key, so the first-period fallback returns the `Q1_2023` data. -/
theorem extract_specific_quarter_fallback_behaviour_witness :
    extract_specific_quarter [("Q1_2023", dummyScrapedQuarter)] "Q2" (some 2024) =
      some dummyScrapedQuarter :=
  (extract_specific_quarter_fallback_behaviour
    [("Q1_2023", dummyScrapedQuarter)] "Q2" (some 2024)).2.2.2.2
    ("Q1_2023", dummyScrapedQuarter) [] rfl
    (fun y hy hy0 => by cases hy; decide)
    (by decide)

/-- The ten decimal digit characters. -/
def digitChars : List Char := ['0', '1', '2', '3', '4', '5', '6', '7', '8', '9']

/-- Removing occurrences of a pattern is the identity when the pattern's
first character does not occur. -/
theorem removeOcc_of_head_notMem (c : Char) (cs : List Char) :
    ∀ s : List Char, c ∉ s → removeOcc (c :: cs) s = s := by
  intro s
  induction s with
  | nil => intro _; rw [removeOcc]
  | cons a rest ih =>
    intro h
    have hac : (c == a) = false := by
      simp only [beq_eq_false_iff_ne]
      intro he; subst he; exact h (List.mem_cons_self _ _)
    rw [removeOcc]
    simp only [startsWithL, hac, Bool.false_and, Bool.and_eq_true, Bool.false_eq_true,
      false_and, if_false]
    rw [ih (fun hm => h (List.mem_cons_of_mem _ hm))]

/-- `dropWhile` is the identity when no element satisfies the predicate. -/
theorem dropWhileFalse (p : Char → Bool) :
    ∀ s : List Char, (∀ x ∈ s, p x = false) → s.dropWhile p = s := by
  intro s h
  cases s with
  | nil => rfl
  | cons a rest =>
    rw [List.dropWhile_cons]
    simp [h a (List.mem_cons_self _ _)]

/-- `takeWhile` is the identity when every element satisfies the predicate. -/
theorem takeWhileTrue (p : Char → Bool) :
    ∀ s : List Char, (∀ x ∈ s, p x = true) → s.takeWhile p = s := by
  intro s
  induction s with
  | nil => intro _; rfl
  | cons a rest ih =>
    intro h
    rw [List.takeWhile_cons]
    simp only [h a (List.mem_cons_self _ _), if_true]
    rw [ih (fun x hx => h x (List.mem_cons_of_mem _ hx))]

/-- `dropWhile` drops everything when every element satisfies the predicate. -/
theorem dropWhileTrue (p : Char → Bool) :
    ∀ s : List Char, (∀ x ∈ s, p x = true) → s.dropWhile p = [] := by
  intro s
  induction s with
  | nil => intro _; rfl
  | cons a rest ih =>
    intro h
    rw [List.dropWhile_cons]
    simp only [h a (List.mem_cons_self _ _), if_true]
    exact ih (fun x hx => h x (List.mem_cons_of_mem _ hx))

/-- Stripping is the identity on whitespace-free strings. -/
theorem stripWS_eq_self (s : List Char) (h : ∀ x ∈ s, isPySpace x = false) :
    stripWS s = s := by
  unfold stripWS
  rw [dropWhileFalse _ s h,
    dropWhileFalse _ s.reverse (fun x hx => h x (List.mem_reverse.mp hx)),
    List.reverse_reverse]

/-- A needle whose first character does not occur in the haystack is not
a substring. -/
theorem isSubstr_of_head_notMem (c : Char) (cs : List Char) :
    ∀ hay : List Char, c ∉ hay → isSubstr (c :: cs) hay = false := by
  intro hay
  induction hay with
  | nil => intro _; rfl
  | cons a rest ih =>
    intro h
    have hac : (c == a) = false := by
      simp only [beq_eq_false_iff_ne]
      intro he; subst he; exact h (List.mem_cons_self _ _)
    rw [isSubstr]
    simp only [startsWithL, hac, Bool.false_and, Bool.false_or]
    exact ih (fun hm => h (List.mem_cons_of_mem _ hm))

/-- A non-empty digit string parses to its numeric value. -/
theorem parseUnsigned_digits (d : List Char) (hne : d ≠ [])
    (hd : ∀ x ∈ d, x ∈ digitChars) :
    parseUnsigned d = some ((digitsToNat d : ℚ)) := by
  have hdig : ∀ x ∈ d, Char.isDigit x = true := fun x hx =>
    (by decide : ∀ y ∈ digitChars, Char.isDigit y = true) x (hd x hx)
  unfold parseUnsigned
  rw [takeWhileTrue _ d hdig, dropWhileTrue _ d hdig]
  simp [hne]

/-- **C10**: `_parse_value` returns `None` for every cell whose
stripped text is one of the placeholders `'-'`, `'--'`, `'N/A'`,
`'NA'`, `''` (placeholder cells never become a `0.0` value), and a
digit string wrapped in parentheses is parsed as a negative value, so
the scrape path can represent losses. -/
theorem parse_value_placeholder_none_paren_negative :
    (∀ t : List Char, stripWS t ∈ placeholderCells → parse_value t = none) ∧
    (∀ d : List Char, d ≠ [] → (∀ x ∈ d, x ∈ digitChars) →
      parse_value ('(' :: (d ++ [')'])) = some (-(digitsToNat d : ℚ))) := by
  constructor
  · intro t ht
    unfold parse_value
    rw [if_pos (Or.inr ht)]
  · intro d hne hd
    cases d with
    | nil => exact absurd rfl hne
    | cons r rest =>
    clear hne
    set d := r :: rest with hdd
    have hT : ∀ x ∈ ('(' :: (d ++ [')'])), x ∈ ('(' :: ')' :: digitChars) := by
      intro x hx
      rcases List.mem_cons.mp hx with h | h
      · simp [h]
      · rcases List.mem_append.mp h with h | h
        · exact List.mem_cons_of_mem _ (List.mem_cons_of_mem _ (hd x h))
        · simp at h; subst h; simp
    have hnosp : ∀ x ∈ ('(' :: (d ++ [')'])), isPySpace x = false := fun x hx =>
      (by decide : ∀ y ∈ ('(' :: ')' :: digitChars), isPySpace y = false) x (hT x hx)
    have hnp : stripWS ('(' :: (d ++ [')'])) ∉ placeholderCells := by
      rw [stripWS_eq_self _ hnosp]
      intro hmem
      simp only [placeholderCells, List.mem_cons, List.not_mem_nil] at hmem
      rcases hmem with h | h | h | h | h <;> simp_all
    unfold parse_value
    rw [if_neg (by
      intro hor
      rcases hor with h | h
      · exact absurd h (by simp)
      · exact hnp h)]
    have hcomma : removeOcc ((",").toList) ('(' :: (d ++ [')'])) = '(' :: (d ++ [')']) :=
      removeOcc_of_head_notMem ',' [] _ (fun hm =>
        absurd (hT ',' hm) (by decide))
    have hR : removeOcc (("Rs").toList) ('(' :: (d ++ [')'])) = '(' :: (d ++ [')']) :=
      removeOcc_of_head_notMem 'R' ['s'] _ (fun hm =>
        absurd (hT 'R' hm) (by decide))
    have hI : removeOcc (("INR").toList) ('(' :: (d ++ [')'])) = '(' :: (d ++ [')']) :=
      removeOcc_of_head_notMem 'I' ['N', 'R'] _ (fun hm =>
        absurd (hT 'I' hm) (by decide))
    have hstrip : stripWS ('(' :: (d ++ [')'])) = '(' :: (d ++ [')']) :=
      stripWS_eq_self _ hnosp
    have hcurr : ('(' :: (d ++ [')'])).filter
        (fun c => !(c == '₹' || c == '$' || c == '€' || c == '£')) = '(' :: (d ++ [')']) := by
      rw [List.filter_eq_self]
      intro a ha
      exact (by decide :
        ∀ y ∈ ('(' :: ')' :: digitChars), (!(y == '₹' || y == '$' || y == '€' || y == '£')) = true)
        a (hT a ha)
    have hfd : d.filter (fun c => !(c == '(' || c == ')')) = d := by
      rw [List.filter_eq_self]
      intro a ha
      exact (by decide : ∀ y ∈ digitChars, (!(y == '(' || y == ')')) = true) a (hd a ha)
    have hparen : ('(' :: (d ++ [')'])).filter (fun c => !(c == '(' || c == ')')) = d := by
      rw [List.filter_cons, List.filter_append]
      simp only [show (!(('(' : Char) == '(' || ('(' : Char) == ')')) = false from by decide,
        Bool.false_eq_true, if_false, hfd]
      simp [List.filter_cons]
    have hrdig : Char.isDigit r = true :=
      (by decide : ∀ y ∈ digitChars, Char.isDigit y = true) r (hd r (List.mem_cons_self _ _))
    have htake : d.takeWhile (fun x => x.isDigit || x == '.') = d :=
      takeWhileTrue _ _ (fun x hx =>
        (by decide : ∀ y ∈ digitChars, (Char.isDigit y || (y == '.')) = true) x (hd x hx))
    have hfind : findNum ('-' :: d) = some ('-' :: d) := by
      rw [findNum]
      rw [if_neg (by decide), if_pos (by simp [hrdig])]
      rw [show List.takeWhile (fun x => x.isDigit || x == '.') (r :: rest) = d from htake]
    have hpf : parseFloatQ ('-' :: d) = some (-(digitsToNat d : ℚ)) := by
      unfold parseFloatQ
      rw [if_pos (show ('-' :: d).head? = some '-' from rfl),
        show ('-' :: d).tail = d from rfl,
        parseUnsigned_digits d (by simp) hd]
      rfl
    have hnotc : ∀ ch : Char, (∀ z ∈ ('(' :: ')' :: digitChars), ¬Char.toLower z = ch) →
        ch ∉ (('(' :: (d ++ [')'])).map Char.toLower) := by
      intro ch hz hm
      rcases List.mem_map.mp hm with ⟨y, hy, hyl⟩
      exact hz y (hT y hy) hyl
    have hcr : isSubstr (("cr").toList) (('(' :: (d ++ [')'])).map Char.toLower) = false :=
      isSubstr_of_head_notMem 'c' ['r'] _ (hnotc 'c' (by decide))
    have hcrore : isSubstr (("crore").toList) (('(' :: (d ++ [')'])).map Char.toLower) = false :=
      isSubstr_of_head_notMem 'c' (("rore").toList) _ (hnotc 'c' (by decide))
    have hlac : isSubstr (("lac").toList) (('(' :: (d ++ [')'])).map Char.toLower) = false :=
      isSubstr_of_head_notMem 'l' (("ac").toList) _ (hnotc 'l' (by decide))
    have hlakh : isSubstr (("lakh").toList) (('(' :: (d ++ [')'])).map Char.toLower) = false :=
      isSubstr_of_head_notMem 'l' (("akh").toList) _ (hnotc 'l' (by decide))
    have hmil : isSubstr (("million").toList) (('(' :: (d ++ [')'])).map Char.toLower) = false :=
      isSubstr_of_head_notMem 'm' (("illion").toList) _ (hnotc 'm' (by decide))
    have hbil : isSubstr (("billion").toList) (('(' :: (d ++ [')'])).map Char.toLower) = false :=
      isSubstr_of_head_notMem 'b' (("illion").toList) _ (hnotc 'b' (by decide))
    simp only [hcomma, hR, hI, hstrip, hcurr]
    rw [if_pos ⟨List.mem_cons_self _ _,
      List.mem_cons_of_mem _ (List.mem_append_right _ (List.mem_cons_self _ _))⟩]
    rw [hparen, hfind]
    simp only [hpf, hcr, hcrore, hlac, hlakh, hmil, hbil, Bool.false_or, Bool.false_eq_true,
      if_false]

/-- **C10 (witness)**: the placeholder `"-"` parses to `None`, and
`"(12)"` parses to `-12`. -/
theorem parse_value_placeholder_paren_witness :
    parse_value (("-").toList) = none ∧
    parse_value (("(12)").toList) = some (-12) := by
  constructor
  · exact parse_value_placeholder_none_paren_negative.1 (("-").toList) (by decide)
  · have h := parse_value_placeholder_none_paren_negative.2 ('1' :: ['2']) (by decide) (by decide)
    convert h using 2

/-- The pattern loop starting at rank `k` returns the first match's
value and rank-based confidence. -/
theorem extract_indicator_go_first (text : List Char) :
    ∀ (ps : List (List Char → Option RMatch)) (k i : Nat)
      (p : List Char → Option RMatch) (m : RMatch),
      ps[i]? = some p → p text = some m →
      (∀ (j : Nat) (q : List Char → Option RMatch), j < i → ps[j]? = some q → q text = none) →
      extract_indicator_go text ps k =
        some (clean_number m.group1,
          if hasBoostKeyword text m then
            min 1 (95 / 100 - ((k + i : Nat) : ℚ) * (1 / 10) + 5 / 100)
          else 95 / 100 - ((k + i : Nat) : ℚ) * (1 / 10)) := by
  intro ps
  induction ps with
  | nil => intro k i p m hp; simp at hp
  | cons p0 rest ih =>
    intro k i p m hp hm hearlier
    cases i with
    | zero =>
      simp only [List.getElem?_cons_zero, Option.some.injEq] at hp
      subst hp
      rw [extract_indicator_go, hm]
      simp
    | succ i =>
      have h0 : p0 text = none :=
        hearlier 0 p0 (Nat.succ_pos i) (by simp)
      rw [extract_indicator_go, h0]
      have hrec := ih (k + 1) i p m (by simpa using hp) hm
        (fun j q hj hq => hearlier (j + 1) q (by omega) (by simpa using hq))
      rw [hrec]
      push_cast
      ring_nf

/-- The pattern loop returns `none` exactly when no pattern matches. -/
theorem extract_indicator_go_none (text : List Char) :
    ∀ (ps : List (List Char → Option RMatch)) (k : Nat),
      (extract_indicator_go text ps k = none ↔
        ∀ (j : Nat) (q : List Char → Option RMatch), ps[j]? = some q → q text = none) := by
  intro ps
  induction ps with
  | nil => intro k; simp [extract_indicator_go]
  | cons p0 rest ih =>
    intro k
    rw [extract_indicator_go]
    cases h0 : p0 text with
    | some m =>
      simp only [Option.some.injEq, reduceCtorEq, false_iff, not_forall]
      exact ⟨0, p0, by simp, by simp [h0]⟩
    | none =>
      rw [ih (k + 1)]
      constructor
      · intro hall j q hq
        cases j with
        | zero =>
          simp only [List.getElem?_cons_zero, Option.some.injEq] at hq
          subst hq; exact h0
        | succ j => exact hall j q (by simpa using hq)
      · intro hall j q hq
        exact hall (j + 1) q (by simpa using hq)

/-- Splitting on a character that does not occur yields one group. -/
theorem splitOnChar_no_sep (sep : Char) :
    ∀ s : List Char, (∀ x ∈ s, x ≠ sep) → splitOnChar sep s = [s] := by
  intro s
  induction s with
  | nil => intro _; rfl
  | cons c rest ih =>
    intro h
    rw [splitOnChar]
    have hc : (c == sep) = false := by
      simp only [beq_eq_false_iff_ne]
      exact h c (List.mem_cons_self _ _)
    rw [hc]
    simp only [Bool.false_eq_true, if_false]
    rw [ih (fun x hx => h x (List.mem_cons_of_mem _ hx))]

/-- `_clean_number` on a plain digit string is its numeric value. -/
theorem clean_number_digits (d : List Char) (hne : d ≠ [])
    (hd : ∀ x ∈ d, x ∈ digitChars) :
    clean_number d = (digitsToNat d : ℚ) := by
  have hmem : ∀ (c : Char) (cs : List Char), c ∉ ('0' :: digitChars) →
      removeOcc (c :: cs) d = d := fun c cs hc =>
    removeOcc_of_head_notMem c cs d (fun hm => hc (List.mem_cons_of_mem _ (hd c hm)))
  have hnosp : ∀ x ∈ d, isPySpace x = false := fun x hx =>
    (by decide : ∀ y ∈ digitChars, isPySpace y = false) x (hd x hx)
  unfold clean_number
  rw [show (("₹").toList) = '₹' :: [] from rfl, hmem '₹' [] (by decide)]
  rw [show (("Rs").toList) = 'R' :: ['s'] from rfl, hmem 'R' ['s'] (by decide)]
  rw [show (("INR").toList) = 'I' :: ['N', 'R'] from rfl, hmem 'I' ['N', 'R'] (by decide)]
  rw [stripWS_eq_self d hnosp]
  simp only [gt_iff_lt]
  rw [show ((",").toList) = ',' :: [] from rfl, hmem ',' [] (by decide)]
  rw [splitOnChar_no_sep '.' d (fun x hx => by
    have := hd x hx
    intro he; subst he
    exact absurd this (by decide))]
  simp only [List.length_cons, List.length_nil]
  rw [if_neg (by omega)]
  have hhead : d.head? ≠ some '-' := by
    cases d with
    | nil => simp
    | cons r rest =>
      simp only [List.head?_cons, ne_eq, Option.some.injEq]
      intro he
      subst he
      exact absurd (hd '-' (List.mem_cons_self _ _)) (by decide)
  unfold parseFloatQ
  rw [if_neg hhead, parseUnsigned_digits d hne hd]

/-- **C3**: `extract_indicator` tries the indicator's pattern list
strictly in order; the first pattern that matches determines both the
returned value (`_clean_number` of group 1) and the confidence
`0.95 - 0.10*rank`, boosted by `+0.05` (capped at `1.0`) exactly when
the ±100-character window around the match contains a period keyword;
later patterns are never consulted (the result does not depend on
them), and `None` is returned exactly when no pattern matches. -/
theorem extract_indicator_first_match_confidence :
    ∀ (patterns : List (List Char → Option RMatch)) (text : List Char),
      (∀ (i : Nat) (p : List Char → Option RMatch) (m : RMatch),
        patterns[i]? = some p → p text = some m →
        (∀ (j : Nat) (q : List Char → Option RMatch), j < i →
          patterns[j]? = some q → q text = none) →
        extract_indicator patterns text =
          some (clean_number m.group1,
            if hasBoostKeyword text m then
              min 1 (95 / 100 - (i : ℚ) * (1 / 10) + 5 / 100)
            else 95 / 100 - (i : ℚ) * (1 / 10))) ∧
      (extract_indicator patterns text = none ↔
        ∀ (j : Nat) (q : List Char → Option RMatch), patterns[j]? = some q → q text = none) := by
  intro patterns text
  constructor
  · intro i p m hp hm hearlier
    have := extract_indicator_go_first text patterns 0 i p m hp hm hearlier
    rw [extract_indicator, this]
    norm_num
  · exact extract_indicator_go_none text patterns 0

/-- A pattern that never matches (first pattern of the C3 witness). -/
def witnessPattern1 : List Char → Option RMatch := fun _ => none

/-- A pattern matching the number `123` at offsets 3..6 (second
pattern of the C3 witness). -/
def witnessPattern2 : List Char → Option RMatch :=
  fun _ => some { mstart := 3, mstop := 6, group1 := ("123").toList }

/-- **C3 (witness)**: on `"q1 123"` with a failing first pattern and a
second pattern capturing `"123"`, the extractor returns value `123`
with confidence `0.95 - 0.10 + 0.05 = 0.9` (the window contains
`"q1"`). -/
theorem extract_indicator_first_match_confidence_witness :
    extract_indicator [witnessPattern1, witnessPattern2] (("q1 123").toList) =
      some (123, 9 / 10) := by
  have h := (extract_indicator_first_match_confidence
    [witnessPattern1, witnessPattern2] (("q1 123").toList)).1 1
    witnessPattern2 { mstart := 3, mstop := 6, group1 := ("123").toList }
    rfl rfl
    (by
      intro j q hj hq
      cases j with
      | zero =>
        simp only [List.getElem?_cons_zero, Option.some.injEq] at hq
        subst hq; rfl
      | succ j => omega)
  rw [h]
  have hb : hasBoostKeyword (("q1 123").toList)
      { mstart := 3, mstop := 6, group1 := ("123").toList } = true := by decide
  rw [hb]
  have hc : clean_number (("123").toList) = 123 := by
    rw [clean_number_digits (("123").toList) (by decide) (by decide),
      show digitsToNat (("123").toList) = 123 from by decide]
    norm_num
  rw [if_pos rfl, hc]
  norm_num

/-- Characters of `removeOcc pat s` come from `s` (strong induction on
length). -/
theorem mem_removeOcc (pat : List Char) :
    ∀ (n : Nat) (s : List Char), s.length ≤ n → ∀ x, x ∈ removeOcc pat s → x ∈ s := by
  intro n
  induction n with
  | zero =>
    intro s hs x hx
    rw [List.length_eq_zero.mp (Nat.le_zero.mp hs)] at hx ⊢
    rw [removeOcc] at hx
    exact hx
  | succ n ih =>
    intro s hs x hx
    cases s with
    | nil => rw [removeOcc] at hx; exact hx
    | cons c rest =>
      rw [removeOcc] at hx
      by_cases hcond : (startsWithL pat (c :: rest) && !pat.isEmpty) = true
      · rw [if_pos hcond] at hx
        have h1 : x ∈ rest.drop (pat.length - 1) := by
          apply ih _ _ x hx
          have := List.length_drop (pat.length - 1) rest
          simp only [List.length_cons] at hs
          omega
        exact List.mem_cons_of_mem _ (List.mem_of_mem_drop h1)
      · rw [if_neg hcond] at hx
        rcases List.mem_cons.mp hx with h | h
        · exact h ▸ List.mem_cons_self _ _
        · apply List.mem_cons_of_mem
          apply ih _ _ x h
          simp only [List.length_cons] at hs
          omega

/-- Characters surviving `dropWhile` come from the original list. -/
theorem mem_dropWhile (p : Char → Bool) :
    ∀ s : List Char, ∀ x ∈ s.dropWhile p, x ∈ s := by
  intro s
  induction s with
  | nil => intro x hx; exact hx
  | cons c rest ih =>
    intro x hx
    rw [List.dropWhile_cons] at hx
    by_cases hc : p c = true
    · rw [if_pos hc] at hx
      exact List.mem_cons_of_mem _ (ih x hx)
    · rw [if_neg hc] at hx
      exact hx

/-- Characters of a stripped string come from the original. -/
theorem mem_stripWS : ∀ s : List Char, ∀ x ∈ stripWS s, x ∈ s := by
  intro s x hx
  unfold stripWS at hx
  have h1 := List.mem_reverse.mp hx
  have h2 := mem_dropWhile _ _ _ h1
  have h3 := List.mem_reverse.mp h2
  exact mem_dropWhile _ _ _ h3

/-- Characters of any group of a split come from the split string. -/
theorem mem_splitOnChar (sep : Char) :
    ∀ (s part : List Char), part ∈ splitOnChar sep s → ∀ x ∈ part, x ∈ s := by
  intro s
  induction s with
  | nil =>
    intro part hp x hx
    rw [splitOnChar] at hp
    simp only [List.mem_singleton] at hp
    subst hp
    exact absurd hx (List.not_mem_nil x)
  | cons c rest ih =>
    intro part hp x hx
    rw [splitOnChar] at hp
    by_cases hc : (c == sep) = true
    · rw [if_pos hc] at hp
      rcases List.mem_cons.mp hp with h | h
      · subst h; exact absurd hx (List.not_mem_nil x)
      · exact List.mem_cons_of_mem _ (ih part h x hx)
    · rw [if_neg hc] at hp
      cases hsp : splitOnChar sep rest with
      | nil =>
        rw [hsp] at hp
        simp only [List.mem_singleton] at hp
        subst hp
        have hxc : x = c := by simpa using hx
        subst hxc
        exact List.mem_cons_self _ _
      | cons g gs =>
        rw [hsp] at hp
        rcases List.mem_cons.mp hp with h | h
        · subst h
          rcases List.mem_cons.mp hx with h | h
          · exact h ▸ List.mem_cons_self _ _
          · exact List.mem_cons_of_mem _ (ih g (hsp ▸ List.mem_cons_self _ _) x h)
        · exact List.mem_cons_of_mem _ (ih part (hsp ▸ List.mem_cons_of_mem _ h) x hx)

/-- The last group of a non-empty list is a member. -/
theorem mem_getLastD {α : Type} : ∀ (l : List α) (d : α), l ≠ [] → l.getLastD d ∈ l := by
  intro l
  induction l with
  | nil => intro d h; exact absurd rfl h
  | cons a rest ih =>
    intro d _
    cases rest with
    | nil => simp
    | cons b t =>
      have := ih d (by simp)
      simpa using List.mem_cons_of_mem a this

/-- The unsigned float parser only produces non-negative values. -/
theorem parseUnsigned_nonneg : ∀ (t : List Char) (v : ℚ), parseUnsigned t = some v → 0 ≤ v := by
  intro t v h
  simp only [parseUnsigned] at h
  split at h
  · split at h
    · exact absurd h (by simp)
    · rw [show v = ((digitsToNat (t.takeWhile Char.isDigit) : ℚ)) from by cases h; rfl]
      positivity
  · split at h
    · rw [show v = _ from (Option.some.inj h).symm]
      positivity
    · exact absurd h (by simp)
  · exact absurd h (by simp)

/-- The float parser is non-negative on strings without a minus sign. -/
theorem parseFloatQ_nonneg (t : List Char) (v : ℚ) (hm : '-' ∉ t)
    (h : parseFloatQ t = some v) : 0 ≤ v := by
  unfold parseFloatQ at h
  split at h
  case isTrue hh =>
    exfalso
    cases t with
    | nil => simp at hh
    | cons c rest =>
      simp only [List.head?_cons, Option.some.injEq] at hh
      subst hh
      exact hm (List.mem_cons_self _ _)
  case isFalse hh => exact parseUnsigned_nonneg t v h

/-- `_clean_number` is non-negative on any string over digits, commas
and dots — the language of the shared number-capture regex
`\d+(?:,\d+)*(?:\.\d+)?`. -/
theorem clean_number_nonneg (s : List Char)
    (hs : ∀ x ∈ s, x ∈ (',' :: '.' :: digitChars)) : 0 ≤ clean_number s := by
  have h0 : '-' ∉ s := fun hm => absurd (hs '-' hm) (by decide)
  have hchain : ∀ x ∈ removeOcc ((",").toList)
      (stripWS (removeOcc (("INR").toList) (removeOcc (("Rs").toList)
        (removeOcc (("₹").toList) s)))), x ∈ s := by
    intro x hx
    have h1 := mem_removeOcc ((",").toList) _ _ le_rfl x hx
    have h2 := mem_stripWS _ x h1
    have h3 := mem_removeOcc (("INR").toList) _ _ le_rfl x h2
    have h4 := mem_removeOcc (("Rs").toList) _ _ le_rfl x h3
    exact mem_removeOcc (("₹").toList) _ _ le_rfl x h4
  unfold clean_number
  simp only [gt_iff_lt]
  set u := removeOcc ((",").toList)
      (stripWS (removeOcc (("INR").toList) (removeOcc (("Rs").toList)
        (removeOcc (("₹").toList) s)))) with hu
  have hminus : '-' ∉ (if 2 < (splitOnChar '.' u).length then
      (splitOnChar '.' u).dropLast.flatten ++ '.' :: (splitOnChar '.' u).getLastD []
      else u) := by
    by_cases hlen : 2 < (splitOnChar '.' u).length
    · rw [if_pos hlen]
      intro hmem
      rcases List.mem_append.mp hmem with h | h
      · rcases List.mem_flatten.mp h with ⟨part, hpart, hxp⟩
        have hp2 : part ∈ splitOnChar '.' u := List.dropLast_subset _ hpart
        exact h0 (hchain '-' (mem_splitOnChar '.' u part hp2 '-' hxp))
      · rcases List.mem_cons.mp h with h | h
        · exact absurd h (by decide)
        · have hne : splitOnChar '.' u ≠ [] := by
            intro he; rw [he] at hlen; simp at hlen
          have hlast := mem_getLastD (splitOnChar '.' u) [] hne
          exact h0 (hchain '-' (mem_splitOnChar '.' u _ hlast '-' h))
    · rw [if_neg hlen]
      intro hmem
      exact h0 (hchain '-' hmem)
  cases hp : parseFloatQ (if 2 < (splitOnChar '.' u).length then
      (splitOnChar '.' u).dropLast.flatten ++ '.' :: (splitOnChar '.' u).getLastD []
      else u) with
  | none => simp
  | some v => simpa using parseFloatQ_nonneg _ v hminus hp

/-- Any value produced by the pattern loop is `_clean_number` of some
pattern's group-1 capture. -/
theorem extract_indicator_go_some (text : List Char) :
    ∀ (ps : List (List Char → Option RMatch)) (k : Nat) (v c : ℚ),
      extract_indicator_go text ps k = some (v, c) →
      ∃ p ∈ ps, ∃ m : RMatch, p text = some m ∧ v = clean_number m.group1 := by
  intro ps
  induction ps with
  | nil => intro k v c h; rw [extract_indicator_go] at h; exact absurd h (by simp)
  | cons p0 rest ih =>
    intro k v c h
    rw [extract_indicator_go] at h
    cases h0 : p0 text with
    | some m =>
      rw [h0] at h
      refine ⟨p0, List.mem_cons_self _ _, m, h0, ?_⟩
      cases h
      rfl
    | none =>
      rw [h0] at h
      rcases ih (k + 1) v c h with ⟨p, hp, m, hm, hv⟩
      exact ⟨p, List.mem_cons_of_mem _ hp, m, hm, hv⟩

/-- **C9**: every value returned by the Pattern Extractor is
non-negative: `_clean_number` maps every string over the capture
language of the shared number regex (digits, commas, dots — unsigned)
to a rational `>= 0` (with `0.0` on parse failure), so when each
pattern's group-1 capture lies in that language — as is the case for
every pattern of `_build_patterns` — `extract_indicator` can never
produce a negative indicator value, even for a loss-making quarter. -/
theorem pattern_extractor_values_nonneg :
    (∀ s : List Char, (∀ x ∈ s, x ∈ (',' :: '.' :: digitChars)) → 0 ≤ clean_number s) ∧
    (∀ (patterns : List (List Char → Option RMatch)) (text : List Char) (v c : ℚ),
      (∀ p ∈ patterns, ∀ m : RMatch, p text = some m →
        ∀ x ∈ m.group1, x ∈ (',' :: '.' :: digitChars)) →
      extract_indicator patterns text = some (v, c) → 0 ≤ v) := by
  constructor
  · exact clean_number_nonneg
  · intro patterns text v c hgrp h
    rcases extract_indicator_go_some text patterns 0 v c h with ⟨p, hp, m, hm, hv⟩
    rw [hv]
    exact clean_number_nonneg m.group1 (hgrp p hp m hm)

/-- **C9 (witness)**: `_clean_number` of `"1,234.56"` is non-negative,
and a concrete extraction returning value `123` is non-negative. -/
theorem pattern_extractor_values_nonneg_witness :
    0 ≤ clean_number (("1,234.56").toList) ∧ (0 : ℚ) ≤ 123 := by
  constructor
  · exact pattern_extractor_values_nonneg.1 (("1,234.56").toList) (by decide)
  · have hc : clean_number (("123").toList) = 123 := by
      rw [clean_number_digits (("123").toList) (by decide) (by decide),
        show digitsToNat (("123").toList) = 123 from by decide]
      norm_num
    have hb : hasBoostKeyword (("q1 123").toList)
        { mstart := 3, mstop := 6, group1 := ("123").toList } = true := by decide
    have hgo := extract_indicator_go_first (("q1 123").toList) [witnessPattern2] 0 0
      witnessPattern2 { mstart := 3, mstop := 6, group1 := ("123").toList }
      rfl rfl (fun j q hj _ => absurd hj (by omega))
    simp only [hb, if_true] at hgo
    have hext : extract_indicator [witnessPattern2] (("q1 123").toList) = some (123, 1) := by
      rw [extract_indicator, hgo, hc]
      norm_num
    refine pattern_extractor_values_nonneg.2 [witnessPattern2] (("q1 123").toList) 123 1 ?_ hext
    intro p hp m hm x hx
    have hp2 : p = witnessPattern2 := by simpa using hp
    subst hp2
    have hm2 : m = { mstart := 3, mstop := 6, group1 := ("123").toList } :=
      (Option.some.inj hm).symm
    rw [hm2] at hx
    exact (by decide : ∀ y ∈ ("123").toList, y ∈ (',' :: '.' :: digitChars)) x hx

/-- Keys of the built result dict come from the indicator-name list. -/
theorem buildResults_keys (ext : String → Option (ℚ × ℚ)) :
    ∀ (names : List String) (p : String × ℚ × ℚ),
      p ∈ buildResults ext names → p.1 ∈ names := by
  intro names
  induction names with
  | nil => intro p hp; rw [buildResults] at hp; exact absurd hp (List.not_mem_nil p)
  | cons n rest ih =>
    intro p hp
    rw [buildResults] at hp
    cases he : ext n with
    | some vc =>
      obtain ⟨v, c⟩ := vc
      rw [he] at hp
      rcases List.mem_cons.mp hp with h | h
      · subst h; exact List.mem_cons_self _ _
      · exact List.mem_cons_of_mem _ (ih p h)
    | none =>
      rw [he] at hp
      exact List.mem_cons_of_mem _ (ih p hp)

/-- With distinct indicator names, looking up a known indicator in the
built result dict gives exactly the extractor's output. -/
theorem buildResults_lookup (ext : String → Option (ℚ × ℚ)) :
    ∀ names : List String, names.Nodup → ∀ k ∈ names,
      List.lookup k (buildResults ext names) = ext k := by
  intro names
  induction names with
  | nil => intro _ k hk; simp at hk
  | cons n rest ih =>
    intro hnd k hk
    have hnd2 : rest.Nodup := (List.nodup_cons.mp hnd).2
    have hnmem : n ∉ rest := (List.nodup_cons.mp hnd).1
    rw [buildResults]
    cases he : ext n with
    | some vc =>
      obtain ⟨v, c⟩ := vc
      rw [List.lookup]
      by_cases hkn : k = n
      · subst hkn
        simp [he]
      · have hb : (k == n) = false := by simp [hkn]
        rw [hb]
        rcases List.mem_cons.mp hk with h | h
        · exact absurd h hkn
        · exact ih hnd2 k h
    | none =>
      rcases List.mem_cons.mp hk with h | h
      · subst h
        rw [he]
        cases hl : List.lookup k (buildResults ext rest) with
        | none => rfl
        | some vc =>
          exact absurd (buildResults_keys ext rest _ (lookup_mem _ _ _ hl)) hnmem
      · exact ih hnd2 k h

/-- A deleted key is absent. -/
theorem lookup_eraseIndicator_self (a : String) :
    ∀ l : List (String × ℚ × ℚ), List.lookup a (eraseIndicator a l) = none := by
  intro l
  induction l with
  | nil => rfl
  | cons p rest ih =>
    obtain ⟨pk, pv⟩ := p
    rw [eraseIndicator, List.filter_cons]
    by_cases hp : pk = a
    · subst hp
      rw [if_neg (by simp)]
      exact ih
    · rw [if_pos (by simp [hp])]
      rw [List.lookup]
      have hb : (a == pk) = false := by
        simp only [beq_eq_false_iff_ne]
        exact fun h => hp h.symm
      rw [hb]
      exact ih

/-- Deleting one key leaves other lookups unchanged. -/
theorem lookup_eraseIndicator_ne (a k : String) (hka : k ≠ a) :
    ∀ l : List (String × ℚ × ℚ),
      List.lookup k (eraseIndicator a l) = List.lookup k l := by
  intro l
  induction l with
  | nil => rfl
  | cons p rest ih =>
    obtain ⟨pk, pv⟩ := p
    rw [eraseIndicator, List.filter_cons]
    by_cases hp : pk = a
    · subst hp
      rw [if_neg (by simp)]
      rw [List.lookup]
      have hb : (k == pk) = false := by simp [hka]
      rw [hb]
      exact ih
    · rw [if_pos (by simp [hp])]
      rw [List.lookup, List.lookup]
      cases hkp : (k == pk) with
      | true => rfl
      | false => exact ih

/-- Lookup through the explicit-unavailability filter: gone when the
key's label matches the not-available pattern, unchanged otherwise. -/
theorem lookup_naFilter (na : String → Bool) (k : String) :
    ∀ l : List (String × ℚ × ℚ),
      List.lookup k (l.filter (fun p => !na (indicatorLabel p.1))) =
        if na (indicatorLabel k) = true then none else List.lookup k l := by
  intro l
  induction l with
  | nil => cases hna : na (indicatorLabel k) <;> simp [hna, List.lookup]
  | cons p rest ih =>
    obtain ⟨pk, pv⟩ := p
    rw [List.filter_cons]
    by_cases hkp : k = pk
    · subst hkp
      cases hna : na (indicatorLabel k) with
      | true =>
        rw [if_neg (by simp [hna])]
        simp [ih, hna]
      | false =>
        rw [if_pos (by simp [hna])]
        simp [List.lookup, hna]
    · have hb : (k == pk) = false := by simp [hkp]
      cases hcond : (!na (indicatorLabel pk)) with
      | true =>
        rw [if_pos (by simp only [hcond])]
        rw [List.lookup, hb, ih]
        cases hna : na (indicatorLabel k) <;> simp [hna, List.lookup, hb]
      | false =>
        rw [if_neg (by simp only [hcond, Bool.false_eq_true, not_false_eq_true])]
        rw [ih]
        cases hna : na (indicatorLabel k) <;> simp [hna, List.lookup, hb]

/-- Master computation of the final lookup of `pbt` in
`extract_all_indicators` when both `pbt` and `total_income` were
extracted: dropped by the collision rule when `|pbt - income| < 1`,
else dropped by the explicit-unavailability rule when it fires for the
label `Pbt`, else kept with its extracted value. -/
theorem extract_all_lookup_pbt (ext : String → Option (ℚ × ℚ)) (notAvail : String → Bool)
    (v cv w cw : ℚ) (hpb : ext "pbt" = some (v, cv))
    (hti : ext "total_income" = some (w, cw)) :
    List.lookup "pbt" (extract_all_indicators ext notAvail) =
      if |v - w| < 1 then none
      else if notAvail (indicatorLabel "pbt") = true then none
      else some (v, cv) := by
  unfold extract_all_indicators
  have hnd : indicatorNames.Nodup := by decide
  have hL1 : List.lookup "pbt" (buildResults ext indicatorNames) = some (v, cv) :=
    (buildResults_lookup ext indicatorNames hnd _ (by decide)).trans hpb
  have hL2 : List.lookup "total_income" (buildResults ext indicatorNames) = some (w, cw) :=
    (buildResults_lookup ext indicatorNames hnd _ (by decide)).trans hti
  by_cases hlt : |v - w| < 1
  · simp only [hL1, hL2, hlt, if_true]
    have hti3 : List.lookup "total_income"
        (eraseIndicator "pbt" (buildResults ext indicatorNames)) = some (w, cw) :=
      (lookup_eraseIndicator_ne "pbt" "total_income" (by decide) _).trans hL2
    have hself : List.lookup "pbt"
        (eraseIndicator "pbt" (buildResults ext indicatorNames)) = none :=
      lookup_eraseIndicator_self "pbt" _
    have he1 : List.lookup "pbt" (eraseIndicator "pat"
        (eraseIndicator "pbt" (buildResults ext indicatorNames))) = none :=
      (lookup_eraseIndicator_ne "pat" "pbt" (by decide) _).trans hself
    simp only [hti3]
    cases hpat : List.lookup "pat"
        (eraseIndicator "pbt" (buildResults ext indicatorNames)) with
    | none =>
      simp [lookup_naFilter, hself]
    | some pv =>
      by_cases hc2 : pv.1 < 100 ∧ w > 10000
      · simp [hc2, lookup_naFilter, he1]
      · simp [hc2, lookup_naFilter, hself]
  · simp only [hL1, hL2, hlt, if_false]
    cases hpat : List.lookup "pat" (buildResults ext indicatorNames) with
    | none =>
      simp [lookup_naFilter, hL1]
    | some pv =>
      by_cases hc2 : pv.1 < 100 ∧ w > 10000
      · have he2 : List.lookup "pbt" (eraseIndicator "pat"
            (buildResults ext indicatorNames)) = some (v, cv) :=
          (lookup_eraseIndicator_ne "pat" "pbt" (by decide) _).trans hL1
        simp [hc2, lookup_naFilter, he2]
      · simp [hc2, lookup_naFilter, hL1]

/-- Every entry of the built result dict is the extractor's output for
its key. -/
theorem buildResults_mem_ext (ext : String → Option (ℚ × ℚ)) :
    ∀ (names : List String) (p : String × ℚ × ℚ),
      p ∈ buildResults ext names → ext p.1 = some p.2 := by
  intro names
  induction names with
  | nil => intro p hp; rw [buildResults] at hp; exact absurd hp (List.not_mem_nil p)
  | cons n rest ih =>
    intro p hp
    rw [buildResults] at hp
    cases he : ext n with
    | some vc =>
      obtain ⟨v, c⟩ := vc
      rw [he] at hp
      rcases List.mem_cons.mp hp with h | h
      · subst h; exact he
      · exact ih p h
    | none =>
      rw [he] at hp
      exact ih p hp

/-- The pruning rules only remove entries: the final result is a subset
of the per-indicator extraction. -/
theorem extract_all_sub (ext : String → Option (ℚ × ℚ)) (notAvail : String → Bool) :
    ∀ q ∈ extract_all_indicators ext notAvail, q ∈ buildResults ext indicatorNames := by
  intro q hq
  unfold extract_all_indicators at hq
  simp only [List.mem_filter] at hq
  rcases hq with ⟨hq, -⟩
  split at hq
  · split at hq
    · have h1 := List.mem_of_mem_filter hq
      split at h1
      · split at h1
        · exact List.mem_of_mem_filter h1
        · exact h1
      · exact h1
    · split at hq
      · split at hq
        · exact List.mem_of_mem_filter hq
        · exact hq
      · exact hq
  · split at hq
    · split at hq
      · exact List.mem_of_mem_filter hq
      · exact hq
    · exact hq

/-- **C7 (amended)**: when extraction finds both `pbt` and
`total_income`, `|PBT - TotalIncome| < 1.0` forces `pbt` out of the
returned IndicatorSet; otherwise `pbt` is kept with its extracted value
UNLESS the independent explicit-unavailability rule fires for the label
`Pbt`; and the pruning rules never add or alter indicators: every entry
of the result is exactly the extractor's output for its key. -/
theorem extract_all_pbt_collision_amended :
    ∀ (ext : String → Option (ℚ × ℚ)) (notAvail : String → Bool) (v cv w cw : ℚ),
      ext "pbt" = some (v, cv) → ext "total_income" = some (w, cw) →
      ((|v - w| < 1 → List.lookup "pbt" (extract_all_indicators ext notAvail) = none) ∧
       (¬ |v - w| < 1 → notAvail (indicatorLabel "pbt") = false →
          List.lookup "pbt" (extract_all_indicators ext notAvail) = some (v, cv)) ∧
       (∀ (k : String) (vc : ℚ × ℚ),
          List.lookup k (extract_all_indicators ext notAvail) = some vc →
            ext k = some vc)) := by
  intro ext na v cv w cw hpb hti
  refine ⟨?_, ?_, ?_⟩
  · intro hlt
    rw [extract_all_lookup_pbt ext na v cv w cw hpb hti, if_pos hlt]
  · intro hlt hna
    rw [extract_all_lookup_pbt ext na v cv w cw hpb hti, if_neg hlt,
      if_neg (by simp [hna])]
  · intro k vc h
    exact buildResults_mem_ext ext indicatorNames (k, vc)
      (extract_all_sub ext na (k, vc) (lookup_mem _ _ _ h))

/-- C7 counterexample extraction outcomes: `pbt` 500, `total_income`
2000 (gap 1500, far above the collision threshold). -/
def extC7 : String → Option (ℚ × ℚ) :=
  fun ind => if ind = "pbt" then some (500, 1)
    else if ind = "total_income" then some (2000, 1) else none

/-- C7 counterexample: the text declares PBT as not available
(`re.search('Pbt[:\\s]+(?:Not|N/A|...)')` matches — e.g. a text
containing `| Total Income | 2000 |`, `| PBT | 500 |` and
`Pbt: Not available`). -/
def notAvailC7 : String → Bool := fun lbl => lbl == "Pbt"

/-- **C7 (counterexample)**: the claim says that when the difference is
`>= 1.0` PBT is kept, but with the explicit-unavailability rule firing
for `Pbt` the returned IndicatorSet has no `pbt` key even though
`|500 - 2000| >= 1`. -/
theorem extract_all_indicators_drops_pbt_despite_gap :
    extC7 "pbt" = some (500, 1) ∧ extC7 "total_income" = some (2000, 1) ∧
    ¬ |(500 : ℚ) - 2000| < 1 ∧
    List.lookup "pbt" (extract_all_indicators extC7 notAvailC7) = none := by
  refine ⟨rfl, rfl, by norm_num, ?_⟩
  rw [extract_all_lookup_pbt extC7 notAvailC7 500 1 2000 1 rfl rfl]
  rw [if_neg (by norm_num), if_pos (by decide)]

/-- C7 witness extraction outcomes: the spec's example, PBT=1000.0 and
TotalIncome=1000.3. -/
def extC7w : String → Option (ℚ × ℚ) :=
  fun ind => if ind = "pbt" then some (1000, 1)
    else if ind = "total_income" then some (10003 / 10, 1) else none

/-- **C7 (witness)**: with PBT=1000.0 and TotalIncome=1000.3
(difference 0.3 < 1.0), `pbt` is absent from the final IndicatorSet. -/
theorem extract_all_pbt_collision_witness :
    List.lookup "pbt" (extract_all_indicators extC7w (fun _ => false)) = none :=
  (extract_all_pbt_collision_amended extC7w (fun _ => false) 1000 1 (10003 / 10) 1 rfl rfl).1 (by
    rw [show (1000 : ℚ) - 10003 / 10 = -(3 / 10) from by norm_num, abs_neg,
      abs_of_nonneg (by norm_num)]
    norm_num)

/-- Whether a rule outcome is classified as a hard error by the
substring test of `validate`. -/
def isHardFail : Bool × Option VMsg → Bool
  | (false, some m) => isHardError m
  | _ => false

/-- `applyRule` clears `valid` exactly on a hard failure. -/
theorem applyRule_valid (acc : VReport) (p : Bool × Option VMsg) :
    (applyRule acc p).valid = (acc.valid && !isHardFail p) := by
  obtain ⟨b, mo⟩ := p
  cases b <;> cases mo <;> simp only [applyRule, isHardFail] <;> try simp
  rename_i m
  cases hm : isHardError m <;> simp [hm]

/-- Spec-side: a critical field for the Op. PBT derivation is absent. -/
def missingCritical (d : VData) : Prop :=
  List.lookup "ebit" d = none ∨ List.lookup "interest" d = none ∨
    List.lookup "other_income" d = none

/-- Spec-side: the profit-hierarchy rule's first detected anomaly is
PAT > PBT with PBT > 0 — PAT exceeds PBT while PBT is positive and no
earlier hierarchy check (EBITDA < EBIT, or PBT > 1.5*EBIT) fires
first to mask it. -/
def patHardUnmasked (d : VData) : Prop :=
  (∀ a b : ℚ, List.lookup "ebitda" d = some a → List.lookup "ebit" d = some b → b ≤ a) ∧
  (∀ e p : ℚ, List.lookup "ebit" d = some e → List.lookup "pbt" d = some p →
    p ≤ e * (3 / 2)) ∧
  (∃ p t : ℚ, List.lookup "pbt" d = some p ∧ List.lookup "pat" d = some t ∧
    0 < p ∧ p < t)

/-- The PBT/Total-Income collision rule never produces a hard error. -/
theorem hf_rule1 (d : VData) : isHardFail (validate_pbt_not_total_income d) = false := by
  unfold validate_pbt_not_total_income
  split
  · split <;> rfl
  · rfl

/-- The PAT-as-percentage rule never produces a hard error. -/
theorem hf_rule2 (d : VData) : isHardFail (validate_pat_not_percentage d) = false := by
  unfold validate_pat_not_percentage
  split
  · split <;> rfl
  · rfl

/-- A range-rule outcome is never a hard error. -/
theorem isHardFail_ranges (c : Prop) [Decidable c] (i : List RangeIssue) :
    isHardFail (if c then ((true : Bool), (none : Option VMsg))
      else (false, some (VMsg.rangeIssues i))) = false := by
  split <;> rfl

/-- The range rule, when it returns, never produces a hard error. -/
theorem hf_rule3 (d : VData) (p3 : Bool × Option VMsg)
    (h : validate_reasonable_ranges d = .ok p3) : isHardFail p3 = false := by
  simp only [validate_reasonable_ranges] at h
  split at h
  · rename_i e ti he hti
    by_cases h0 : ti = 0
    · rw [if_pos h0] at h
      exact absurd h (by simp)
    · rw [if_neg h0] at h
      have h2 := Except.ok.inj h
      subst h2
      exact isHardFail_ranges _ _
  · have h2 := Except.ok.inj h
    subst h2
    exact isHardFail_ranges _ _

/-- The hierarchy rule produces a hard error exactly when the unmasked
PAT > PBT anomaly is its first detected one. -/
theorem hf_rule4 (d : VData) :
    isHardFail (validate_profit_hierarchy d) = true ↔ patHardUnmasked d := by
  rcases h1 : List.lookup "ebitda" d with _ | a <;>
    rcases h2 : List.lookup "ebit" d with _ | b <;>
    rcases h3 : List.lookup "pbt" d with _ | p <;>
    rcases h4 : List.lookup "pat" d with _ | t <;>
    simp only [validate_profit_hierarchy, patHardUnmasked, h1, h2, h3, h4] <;>
    (try split_ifs) <;>
    simp_all [isHardFail, isHardError, not_lt]

/-- The missing-critical-fields rule produces a hard error exactly when
ebit, interest or other_income is absent. -/
theorem hf_rule5 (d : VData) :
    isHardFail (validate_missing_critical_fields d) = true ↔ missingCritical d := by
  unfold validate_missing_critical_fields missingCritical
  rcases h1 : List.lookup "ebit" d with _ | v1 <;>
    rcases h2 : List.lookup "interest" d with _ | v2 <;>
    rcases h3 : List.lookup "other_income" d with _ | v3 <;>
      simp [h1, h2, h3, isHardFail, isHardError]

/-- **C6 (amended)**: `validate` reports `valid = false` exactly when
critical fields for the Op. PBT derivation are missing, or the
profit-hierarchy rule's FIRST detected anomaly is PAT > PBT with
PBT > 0; an earlier hierarchy anomaly (EBITDA < EBIT, or
PBT > 1.5*EBIT) masks the PAT check and yields only a warning, and all
other soft anomalies never clear `valid`.  (When EBITDA is present
with `total_income = 0.0` the source raises `ZeroDivisionError`
instead of returning a report, the `.error` case.) -/
theorem validate_valid_iff_hard_errors :
    ∀ (d : VData) (company quarter : String) (year : Int) (r : VReport),
      validate d company quarter year = .ok r →
      (r.valid = false ↔ missingCritical d ∨ patHardUnmasked d) := by
  intro d company quarter year r h
  unfold validate at h
  cases hr3 : validate_reasonable_ranges d with
  | error e => rw [hr3] at h; exact absurd h (by simp)
  | ok p3 =>
    rw [hr3] at h
    have h2 := Except.ok.inj h
    have hv : r.valid = (!isHardFail (validate_profit_hierarchy d) &&
        !isHardFail (validate_missing_critical_fields d)) := by
      rw [← h2]
      simp only [List.foldl, applyRule_valid, hf_rule1, hf_rule2, hf_rule3 d p3 hr3]
      simp [Bool.and_assoc]
    rw [hv]
    rw [← hf_rule4 d, ← hf_rule5 d]
    cases hh4 : isHardFail (validate_profit_hierarchy d) <;>
      cases hh5 : isHardFail (validate_missing_critical_fields d) <;> simp

deriving instance DecidableEq for Except

/-- C6 counterexample data: EBITDA 5 < EBIT 10 masks the genuine
PAT 20 > PBT 8 > 0 hard error. -/
def d6 : VData :=
  [("ebitda", 5), ("ebit", 10), ("pbt", 8), ("pat", 20), ("interest", 1), ("other_income", 1)]

/-- The report `validate` produces on `d6`: only a warning, still
valid. -/
def r6 : VReport :=
  { valid := true, warnings := [.ebitdaLtEbit 5 10], errors := [],
    company := "", quarter := "", year := 0 }

/-- **C6 (counterexample)**: on `d6` the report is `valid = true` with
the EBITDA<EBIT warning only, although PAT (20) exceeds PBT (8) while
PBT > 0 — a hard error by the claim, which should force
`valid = false`. -/
theorem validate_masks_pat_hard_error :
    validate d6 "" "" 0 = .ok r6 ∧ r6.valid = true ∧
    List.lookup "pbt" d6 = some 8 ∧ List.lookup "pat" d6 = some 20 ∧
    (0 : ℚ) < 8 ∧ (8 : ℚ) < 20 := by
  refine ⟨by decide, rfl, by decide, by decide, by decide, by decide⟩

/-- C6 witness data: `ebit` present but `interest` and `other_income`
missing. -/
def d6w : VData := [("ebit", 1)]

/-- The report `validate` produces on `d6w`: invalid, with the
missing-critical-fields error. -/
def r6w : VReport :=
  { valid := false, warnings := [],
    errors := [.missingCritical ["interest", "other_income"]],
    company := "", quarter := "", year := 0 }

/-- **C6 (witness)**: applying the amended theorem at `d6w` shows its
`valid = false` comes from a hard error (here: missing critical
fields). -/
theorem validate_valid_iff_hard_errors_witness : missingCritical d6w ∨ patHardUnmasked d6w :=
  (validate_valid_iff_hard_errors d6w "" "" 0 r6w (by decide)).mp rfl

/-- **C4**: `extract_financial_data` (with a configured client) tries the
AI adapter first and returns its result unchanged whenever its
`extracted_data` is non-empty; only when the AI result is missing or
empty is the scrape adapter consulted, and a non-empty scrape result is
returned marked `is_fallback := true` with the Perplexity-failure
message; every scrape result carries `source = "Moneycontrol"` and
confidence `0.95`; and when both adapters yield nothing the well-formed
`emptyResult` (source `"None"`, confidence `0`, error string) is
returned.  The statement quantifies over all adapter behaviours,
including raising ones, so the selector never raises. -/
theorem extract_financial_data_ai_primary_fallback :
    ∀ (pc : Behavior (Option ApiResult))
      (ewc : String → String → String → Int → ExtractedCtx)
      (sc : Behavior (Option ScrapedQuarter))
      (company quarter : String) (year : Int),
      (∀ r : XResult, extract_from_perplexity pc ewc company quarter year = some r →
        r.extracted_data ≠ [] →
        extract_financial_data true pc ewc sc company quarter year = r) ∧
      ((extract_from_perplexity pc ewc company quarter year = none ∨
        ∃ r, extract_from_perplexity pc ewc company quarter year = some r ∧
          r.extracted_data = []) →
        ∀ m : XResult, extract_from_moneycontrol sc company quarter year = some m →
          m.extracted_data ≠ [] →
          extract_financial_data true pc ewc sc company quarter year =
            { m with is_fallback := true,
                     primary_source_failed := some "Perplexity",
                     fallback_message :=
                       some "Using Moneycontrol data (Perplexity unavailable)" }) ∧
      (∀ m : XResult, extract_from_moneycontrol sc company quarter year = some m →
        m.source = "Moneycontrol" ∧ m.context_confidence = 95 / 100) ∧
      ((extract_from_perplexity pc ewc company quarter year = none ∨
        ∃ r, extract_from_perplexity pc ewc company quarter year = some r ∧
          r.extracted_data = []) →
       (extract_from_moneycontrol sc company quarter year = none ∨
        ∃ m, extract_from_moneycontrol sc company quarter year = some m ∧
          m.extracted_data = []) →
        extract_financial_data true pc ewc sc company quarter year =
          emptyResult company quarter year) := by
  intro pc ewc sc company quarter year
  refine ⟨?_, ?_, ?_, ?_⟩
  · intro r hr hne
    simp only [extract_financial_data, if_true, hr]
    rw [if_pos (by simpa using hne)]
  · intro hai m hm hne
    have hfb : (match extract_from_moneycontrol sc company quarter year with
        | some r =>
          if !r.extracted_data.isEmpty then
            { r with is_fallback := true,
                     primary_source_failed := some "Perplexity",
                     fallback_message :=
                       some "Using Moneycontrol data (Perplexity unavailable)" }
          else emptyResult company quarter year
        | none => emptyResult company quarter year) =
        { m with is_fallback := true,
                 primary_source_failed := some "Perplexity",
                 fallback_message :=
                   some "Using Moneycontrol data (Perplexity unavailable)" } := by
      simp only [hm]
      change (if (!m.extracted_data.isEmpty) = true then _ else _) = _
      rw [if_pos (by simpa using hne)]
    rcases hai with h | ⟨r, hr, hre⟩
    · simp only [extract_financial_data, if_true, h]
      exact hfb
    · simp only [extract_financial_data, if_true, hr]
      rw [if_neg (by simp [hre])]
      exact hfb
  · intro m hm
    cases sc with
    | raises => simp [extract_from_moneycontrol] at hm
    | returns a =>
      cases a with
      | none => simp [extract_from_moneycontrol] at hm
      | some qd =>
        by_cases hq : qd.isEmpty = true
        · simp [extract_from_moneycontrol, hq] at hm
        · simp only [extract_from_moneycontrol, hq, Bool.false_eq_true, if_false,
            Option.some.injEq] at hm
          subst hm
          exact ⟨rfl, rfl⟩
  · intro hai hmc
    have hfb : (match extract_from_moneycontrol sc company quarter year with
        | some r =>
          if !r.extracted_data.isEmpty then
            { r with is_fallback := true,
                     primary_source_failed := some "Perplexity",
                     fallback_message :=
                       some "Using Moneycontrol data (Perplexity unavailable)" }
          else emptyResult company quarter year
        | none => emptyResult company quarter year) =
        emptyResult company quarter year := by
      rcases hmc with h | ⟨m, hm, hme⟩
      · rw [h]
      · simp only [hm]
        change (if (!m.extracted_data.isEmpty) = true then _ else _) = _
        rw [if_neg (by simp [hme])]
    rcases hai with h | ⟨r, hr, hre⟩
    · simp only [extract_financial_data, if_true, h]
      exact hfb
    · simp only [extract_financial_data, if_true, hr]
      rw [if_neg (by simp [hre])]
      exact hfb

/-- A concrete scraper behaviour returning one populated quarter. -/
def scC4 : Behavior (Option ScrapedQuarter) :=
  .returns (some [("total_income",
    { value := 100, confidence := 1, raw_text := ("100").toList })])

/-- **C4 (witness)**: with the Perplexity client returning no result
and the scraper returning one cell, the selector returns the
Moneycontrol result marked as fallback. -/
theorem extract_financial_data_ai_primary_fallback_witness :
    extract_financial_data true (Behavior.returns none)
      (fun _ _ _ _ => { extracted_data := [], context_confidence := 1 })
      scC4 "TCS" "Q1" 2024 =
      { company := "TCS", quarter := "Q1", year := 2024, source := "Moneycontrol",
        extracted_data := [("total_income", IndVal.scraped
          { value := 100, confidence := 1, raw_text := ("100").toList })],
        context_confidence := 95 / 100, is_fallback := true,
        primary_source_failed := some "Perplexity",
        fallback_message := some "Using Moneycontrol data (Perplexity unavailable)" } := by
  have h := (extract_financial_data_ai_primary_fallback (Behavior.returns none)
    (fun _ _ _ _ => { extracted_data := [], context_confidence := 1 })
    scC4 "TCS" "Q1" 2024).2.1 (Or.inl rfl)
    { company := "TCS", quarter := "Q1", year := 2024, source := "Moneycontrol",
      extracted_data := [("total_income", IndVal.scraped
        { value := 100, confidence := 1, raw_text := ("100").toList })],
      context_confidence := 95 / 100 } rfl (by simp)
  exact h

/-- **C5**: when a non-empty persisted record exists for the exact
(company, quarter, year) key, `research_company_quarter` returns it
unchanged with the storage untouched and the API-queried flag `false`
— and this is independent of the API behaviour, the extractor, the
summariser and the clock, so a second invocation with identical key
arguments returns the identical record and performs no API call. -/
theorem research_company_quarter_idempotent_short_circuit :
    ∀ (st : Storage) (api : Behavior (Option ApiResult))
      (ewc : String → String → String → Int → ExtractedCtx)
      (summarize : String → String → Int → ExtractedCtx → String)
      (nowIso company quarter : String) (year : Int) (rec : Rec),
      load_research st company quarter year = some rec → rec ≠ [] →
      (research_company_quarter st api ewc summarize nowIso company quarter year =
        .ok (rec, st, false)) ∧
      (∀ (api2 : Behavior (Option ApiResult))
         (ewc2 : String → String → String → Int → ExtractedCtx)
         (summarize2 : String → String → Int → ExtractedCtx → String)
         (now2 : String),
        research_company_quarter st api2 ewc2 summarize2 now2 company quarter year =
          .ok (rec, st, false)) := by
  intro st api ewc summarize nowIso company quarter year rec hload hne
  have hval : (!rec.isEmpty) = true := by
    cases rec with
    | nil => exact absurd rfl hne
    | cons a l => rfl
  have key : ∀ (api2 : Behavior (Option ApiResult))
      (ewc2 : String → String → String → Int → ExtractedCtx)
      (summarize2 : String → String → Int → ExtractedCtx → String)
      (now2 : String),
      research_company_quarter st api2 ewc2 summarize2 now2 company quarter year =
        .ok (rec, st, false) := by
    intro api2 ewc2 summarize2 now2
    unfold research_company_quarter
    simp only [hload, hval, if_true]
  exact ⟨key api ewc summarize nowIso, key⟩

/-- A concrete stored record. -/
def rec0C5 : Rec := [("company", JVal.str "TCS")]

/-- A storage holding `rec0C5` under the key for TCS Q1 2024. -/
def st0C5 : Storage := [(file_path "TCS" "Q1" 2024, rec0C5)]

/-- **C5 (witness)**: with TCS Q1 2024 already persisted, the
orchestrator returns the stored record even when the API behaviour
would raise, leaving storage unchanged and making no API call. -/
theorem research_company_quarter_idempotent_short_circuit_witness :
    research_company_quarter st0C5 Behavior.raises
      (fun _ _ _ _ => { extracted_data := [], context_confidence := 0 })
      (fun _ _ _ _ => "") "2024-01-01" "TCS" "Q1" 2024 =
      .ok (rec0C5, st0C5, false) :=
  (research_company_quarter_idempotent_short_circuit st0C5 Behavior.raises
    (fun _ _ _ _ => { extracted_data := [], context_confidence := 0 })
    (fun _ _ _ _ => "") "2024-01-01" "TCS" "Q1" 2024 rec0C5 rfl
    (List.cons_ne_nil _ _)).1

theorem lookup_filterKeyNe {α : Type} (k : String) :
    ∀ l : List (String × α), List.lookup k (l.filter (fun p => p.1 ≠ k)) = none := by
  intro l
  induction l with
  | nil => rfl
  | cons p rest ih =>
    obtain ⟨pk, pv⟩ := p
    rw [List.filter_cons]
    by_cases hp : pk = k
    · rw [if_neg (by simp [hp])]
      exact ih
    · rw [if_pos (by simp [hp])]
      rw [List.lookup]
      have hb : (k == pk) = false := by
        simp only [beq_eq_false_iff_ne]
        exact fun h => hp h.symm
      rw [hb]
      exact ih

theorem lookup_setKey {α : Type} (k : String) (v : α) :
    ∀ l : List (String × α), List.lookup k (setKey k v l) = some v := by
  intro l
  unfold setKey
  induction l with
  | nil => simp [List.lookup]
  | cons p rest ih =>
    obtain ⟨pk, pv⟩ := p
    rw [List.filter_cons]
    by_cases hp : pk = k
    · rw [if_neg (by simp [hp])]
      exact ih
    · rw [if_pos (by simp [hp])]
      rw [List.cons_append, List.lookup]
      have hb : (k == pk) = false := by
        simp only [beq_eq_false_iff_ne]
        exact fun h => hp h.symm
      rw [hb]
      exact ih

/-- **C8**: for any cache state with TTL 60, after `cache_set` writes an
entry for key `k` at time `T`, a `cache_get` at time `T + 61` is a miss
(`none`), increments the miss counter, and deletes the stale entry
(`lookup` on the resulting files is `none`); any `cache_get` at a time
`t` with `t - T ≤ 60` is a hit returning the stored response and
incrementing the hit counter, files unchanged. -/
theorem cache_ttl_expiry_and_hit :
    ∀ (α : Type) (st : CacheState α) (k : String) (resp : α) (T : ℚ),
      st.ttl_seconds = 60 →
      ((cache_get (cache_set st k resp T) k (T + 61)).1 = none ∧
       (cache_get (cache_set st k resp T) k (T + 61)).2.misses = st.misses + 1 ∧
       List.lookup k (cache_get (cache_set st k resp T) k (T + 61)).2.files = none) ∧
      (∀ t : ℚ, t - T ≤ 60 →
        cache_get (cache_set st k resp T) k t =
          (some resp, { cache_set st k resp T with hits := st.hits + 1 })) := by
  intro α st k resp T httl
  have hlk : List.lookup k (cache_set st k resp T).files = some (T, resp) :=
    lookup_setKey k (T, resp) st.files
  have httl2 : (cache_set st k resp T).ttl_seconds = 60 := httl
  constructor
  · unfold cache_get
    simp only [hlk, httl2]
    rw [if_pos (by linarith)]
    refine ⟨rfl, rfl, ?_⟩
    exact lookup_filterKeyNe k _
  · intro t ht
    unfold cache_get
    simp only [hlk, httl2]
    rw [if_neg (by linarith)]
    rfl

/-- **C8 (witness)**: an entry written at time 0 into an empty
TTL-60 cache is a miss at time 61 and a hit at time 60. -/
theorem cache_ttl_expiry_and_hit_witness :
    (cache_get (cache_set ⟨[], 0, 0, 60⟩ "k" (7 : ℕ) 0) "k" (0 + 61)).1 = none ∧
    cache_get (cache_set ⟨[], 0, 0, 60⟩ "k" (7 : ℕ) 0) "k" 60 =
      (some 7, { cache_set ⟨[], 0, 0, 60⟩ "k" (7 : ℕ) 0 with hits := 0 + 1 }) :=
  ⟨(cache_ttl_expiry_and_hit ℕ ⟨[], 0, 0, 60⟩ "k" 7 0 rfl).1.1,
   (cache_ttl_expiry_and_hit ℕ ⟨[], 0, 0, 60⟩ "k" 7 0 rfl).2 60 (by norm_num)⟩
